import Mathlib

/-!
Verification development for the `asicam_v2` camera-control library.

The development shallowly embeds the image container (`CImageData`,
`src/src/ImageData.cpp`), its auto-exposure and preview algorithms, the
FITS-naming logic of `SaveFits`, and the ZWO ASI camera session
(`src/src/CameraUnit_ASI.cpp`, and the superseded revision
`src/src/CCameraUnit_ASI.cpp`).

Modelling conventions:
* C `double`/`float` arithmetic is modelled exactly over `ℚ`; the claims under
  study concern algorithmic branch structure, clamping and integer rounding,
  none of which depend on binary floating-point rounding at the inputs used.
* C machine integers are modelled as `Int`/`Nat`; the one place where 16-bit
  overflow is reachable (the `short` locals of `ApplyBinning`) is modelled
  explicitly by `int16wrap`.
* C truncating casts `(int)x` are `cTrunc`, C `floor` is `cFloor`, C integer
  division is `Int.tdiv` (truncation toward zero).
* Code whose C execution is undefined (out-of-bounds reads, division by zero,
  overflowing float-to-integer casts) is mapped to `Option.none` /
  default-valued reads, mirroring the claim set which asks for a total
  embedding with guarded division.
* Functions that can throw C++ exceptions are embedded in `Except String`;
  a `throw` becomes `Except.error` carrying the exception message.
-/

namespace Asicam

/-- Saturating 16-bit accumulation used by `CImageData::Add` and
`CImageData::ApplyBinning` (ImageData.cpp lines 461-470 and 511-520):
the wider sum is clamped to `0xFFFF`. -/
def satAdd (a b : Nat) : Nat :=
  if a + b > 0xFFFF then 0xFFFF else a + b

/-- C `floor` applied to an exactly-represented real value. -/
def cFloor (q : ℚ) : Int := ⌊q⌋

/-- C cast `(int)` of an exactly-represented real value: truncation toward
zero. -/
def cTrunc (q : ℚ) : Int := if 0 ≤ q then ⌊q⌋ else -⌊-q⌋

/-- The exposure rounding of `FindOptimumExposure`
(`targetExposure = ((int)(targetExposure * 1000)) * 0.001`,
ImageData.cpp line 767). -/
def truncMs (q : ℚ) : ℚ := (cTrunc (q * 1000) : ℚ) / 1000

/-- Wrap-around of a C `short` (16-bit two's complement) receiving an `int`
value, as in the `short` locals of `CImageData::ApplyBinning`. -/
def int16wrap (n : Int) : Int := (n + 32768) % 65536 - 32768

/-- Image metadata (`CImageMetadata`, ImageData.hpp lines 107-141).  The
extended attribute map is kept as an association list. -/
structure CImageMetadata where
  exposureTime : ℚ
  binX : Int
  binY : Int
  imgTop : Int
  imgLeft : Int
  temperature : ℚ
  timestamp : Nat
  cameraName : String
  gain : Int
  offset : Int
  minGain : Int
  maxGain : Int
  extendedMetadata : List (String × String)
deriving Repr, DecidableEq

/-- Value-initialized `CImageMetadata()` (all numeric members zero, empty
string and map). -/
def CImageMetadata.default0 : CImageMetadata :=
  ⟨0, 0, 0, 0, 0, 0, 0, "", 0, 0, 0, 0, []⟩

/-- The image container `CImageData` (ImageData.hpp lines 147-432).  The
pixel array is `Option (List Nat)`: `none` models a null `m_imageData`
pointer.  The JPEG scratch buffer (output of the external `jpge` encoder) is
not part of the state; the preview conversion is modelled separately up to
the RGB bitmap handed to the encoder. -/
structure CImageData where
  m_imageWidth : Int
  m_imageHeight : Int
  m_imageData : Option (List Nat)
  m_metadata : CImageMetadata
  convert_jpeg : Bool
  JpegQuality : Int
  pixelMin : Int
  pixelMax : Int
  autoscale : Bool
deriving Repr, DecidableEq

/-- `CImageData::HasData` (ImageData.hpp line 225): the data pointer is
non-null. -/
def CImageData.HasData (img : CImageData) : Bool := img.m_imageData.isSome

/-- `CImageData::ClearImage` (ImageData.cpp lines 183-200): frees the pixel
array, zeroes the dimensions and the frame origin. -/
def CImageData.ClearImage (img : CImageData) : CImageData :=
  { img with
    m_imageData := none, m_imageWidth := 0, m_imageHeight := 0,
    m_metadata := { img.m_metadata with imgLeft := 0, imgTop := 0 } }

/-- The default constructor `CImageData()` (ImageData.cpp lines 202-206).
Members not covered by its initializer list are indeterminate in C++; they
are modelled as `false`/zero here (no claim reads them on an empty buffer). -/
def CImageData.mkEmpty : CImageData :=
  ⟨0, 0, none, CImageMetadata.default0, false, 100, -1, -1, false⟩

/-- The 8-bit source normalization of the pixel constructor
(ImageData.cpp lines 230-236): shift into the top byte of a 16-bit sample,
then clamp values at or above `0xff00` to `0xffff`. -/
def shift8 (v : Nat) : Nat :=
  let x := (v * 256) % 65536
  if x ≥ 0xff00 then 0xffff else x

/-- The pixel constructor `CImageData(int, int, ...)` (ImageData.cpp lines
208-260).  `now` stands for `getTime()`.  Reading past the end of the
caller's buffer is undefined in C and modelled by the `getD` default. -/
def CImageData.construct (imageWidth imageHeight : Int)
    (imageData : Option (List Nat)) (metadata : CImageMetadata)
    (is8bit : Bool) (enableJpeg : Bool) (JpegQuality : Int)
    (pixelMin pixelMax : Int) (autoscale : Bool) (now : Nat) : CImageData :=
  if imageWidth ≤ 0 ∨ imageHeight ≤ 0 then CImageData.mkEmpty
  else
    let n := (imageWidth * imageHeight).toNat
    let data : List Nat :=
      match imageData with
      | none => List.replicate n 0
      | some l =>
        if is8bit then List.ofFn fun i : Fin n => shift8 (l.getD i.1 0)
        else List.ofFn fun i : Fin n => l.getD i.1 0
    { m_imageWidth := imageWidth, m_imageHeight := imageHeight,
      m_imageData := some data,
      m_metadata :=
        { metadata with
          timestamp := if metadata.timestamp = 0 then now else metadata.timestamp },
      convert_jpeg := enableJpeg, JpegQuality := JpegQuality,
      pixelMin := pixelMin, pixelMax := pixelMax, autoscale := autoscale }

/-- Copy construction / assignment (ImageData.cpp lines 285-358): both clear
the destination, then deep-copy `width*height` pixels and the settings when
the source has data; self-assignment returns the same value.  The early
return on an empty source leaves the cleared state (whose unassigned members
are modelled as in `mkEmpty`). -/
def CImageData.assign (rhs : CImageData) : CImageData :=
  if rhs.m_imageWidth = 0 ∨ rhs.m_imageHeight = 0 ∨ rhs.m_imageData = none then
    CImageData.mkEmpty
  else
    let n := (rhs.m_imageWidth * rhs.m_imageHeight).toNat
    let l := rhs.m_imageData.getD []
    { m_imageWidth := rhs.m_imageWidth, m_imageHeight := rhs.m_imageHeight,
      m_imageData := some (List.ofFn fun i : Fin n => l.getD i.1 0),
      m_metadata := rhs.m_metadata,
      convert_jpeg := false, JpegQuality := rhs.JpegQuality,
      pixelMin := rhs.pixelMin, pixelMax := rhs.pixelMax,
      autoscale := rhs.autoscale }

/-- `CImageData::Add` (ImageData.cpp lines 437-480): pixel-wise saturating
stacking; copies the source if the target is empty; a dimension mismatch is
a no-op; cumulative exposure time is summed. -/
def CImageData.Add (lhs rhs : CImageData) : CImageData :=
  if ¬ rhs.HasData then lhs
  else if ¬ lhs.HasData then CImageData.assign rhs
  else if rhs.m_imageWidth ≠ lhs.m_imageWidth ∨ rhs.m_imageHeight ≠ lhs.m_imageHeight then lhs
  else
    let n := (lhs.m_imageWidth * lhs.m_imageHeight).toNat
    let tl := lhs.m_imageData.getD []
    let rl := rhs.m_imageData.getD []
    { lhs with
      m_imageData := some (List.ofFn fun i : Fin n => satAdd (tl.getD i.1 0) (rl.getD i.1 0)),
      m_metadata :=
        { lhs.m_metadata with
          exposureTime := lhs.m_metadata.exposureTime + rhs.m_metadata.exposureTime } }

/-- One write of the binning accumulation loop (ImageData.cpp lines 506-523):
the source sample at row-major position `rc` is saturating-added into the
target cell `(row / binY) * newW + column / binX`.  A negative or
out-of-range target index is undefined behaviour in C; it is modelled as a
no-op (`List.set` out of range). -/
def binStep (src : List Nat) (width binX binY newW : Int)
    (tgt : List Nat) (rc : Nat × Nat) : List Nat :=
  let idx : Int := Int.tdiv (rc.1 : Int) binY * newW + Int.tdiv (rc.2 : Int) binX
  let sv : Nat := src.getD ((rc.1 : Int) * width + (rc.2 : Int)).toNat 0
  if 0 ≤ idx then tgt.set idx.toNat (satAdd (tgt.getD idx.toNat 0) sv) else tgt

/-- Row-major traversal order of the binning loops (rows
`0..binSourceImageHeight`, columns `0..binSourceImageWidth`). -/
def rowMajorPairs (rows cols : Nat) : List (Nat × Nat) :=
  (List.range rows).flatMap fun r => (List.range cols).map fun c => (r, c)

/-- `CImageData::ApplyBinning` (ImageData.cpp lines 482-533).  The halved
dimensions pass through `short` locals (`int16wrap`).  A `(1,1)` request and
an empty buffer are no-ops. -/
def CImageData.ApplyBinning (img : CImageData) (binX binY : Int) : CImageData :=
  if ¬ img.HasData then img
  else if binX = 1 ∧ binY = 1 then img
  else
    let newW := int16wrap (Int.tdiv img.m_imageWidth binX)
    let newH := int16wrap (Int.tdiv img.m_imageHeight binY)
    let binSrcW := int16wrap (newW * binX)
    let binSrcH := int16wrap (newH * binY)
    let src := img.m_imageData.getD []
    let init := List.replicate (newH * newW).toNat 0
    let newData :=
      (rowMajorPairs binSrcH.toNat binSrcW.toNat).foldl
        (binStep src img.m_imageWidth binX binY newW) init
    { img with m_imageData := some newData, m_imageWidth := newW, m_imageHeight := newH }

/-- `CImageData::FlipHorizontal` (ImageData.cpp lines 535-544): each of the
`m_imageHeight` rows of `m_imageWidth` samples is reversed in place. -/
def CImageData.FlipHorizontal (img : CImageData) : CImageData :=
  match img.m_imageData with
  | none => img
  | some l =>
    let w := img.m_imageWidth.toNat
    let h := img.m_imageHeight.toNat
    { img with
      m_imageData :=
        some ((List.range h).flatMap fun r => ((l.drop (r * w)).take w).reverse) }

/-- `CImageData::DataMin` (ImageData.cpp lines 548-564): minimum sample over
the buffer, `0xffff` for an empty buffer. -/
def CImageData.DataMin (img : CImageData) : Nat :=
  if ¬ img.HasData then 0xffff
  else (img.m_imageData.getD []).foldl (fun acc v => if acc > v then v else acc) 0xffff

/-- `CImageData::DataMax` (ImageData.cpp lines 566-582): maximum sample over
the buffer, `0xffff` for an empty buffer. -/
def CImageData.DataMax (img : CImageData) : Nat :=
  if ¬ img.HasData then 0xffff
  else (img.m_imageData.getD []).foldl (fun acc v => if acc < v then v else acc) 0

/-- The size invariant of the image container: a null pixel array comes with
zero dimensions, and a present pixel array has exactly `width * height`
samples (with nonnegative dimensions). -/
def CImageData.SizeInv (img : CImageData) : Prop :=
  match img.m_imageData with
  | none => img.m_imageWidth = 0 ∧ img.m_imageHeight = 0
  | some l =>
    (l.length : Int) = img.m_imageWidth * img.m_imageHeight ∧
    0 ≤ img.m_imageWidth ∧ 0 ≤ img.m_imageHeight

/-- The claimed zero-dimension property: a buffer with zero width or zero
height has no data. -/
def CImageData.ZeroDimNoData (img : CImageData) : Prop :=
  (img.m_imageWidth = 0 ∨ img.m_imageHeight = 0) → img.HasData = false

/-- Insertion of a sample into an ascending-sorted list. -/
def insertSorted (x : Nat) : List Nat → List Nat
  | [] => [x]
  | y :: ys => if x ≤ y then x :: y :: ys else y :: insertSorted x ys

/-- Ascending sort of the copied pixel buffer: `qsort` with `_compare_uint16`
(ImageData.cpp lines 664-667 and 691).  Any ascending-sorted permutation of a
multiset of samples is unique, so an insertion sort models `qsort`
exactly. -/
def sortAsc (l : List Nat) : List Nat := l.foldr insertSorted []

/-- The percentile-sample selection of `CImageData::FindOptimumExposure`
(ImageData.cpp lines 687-713): sort, determine the sort direction from the
first and last element, compute the percentile index (`floor`, with the
`> 99.99` ceiling), shift it to keep `numPixelExclusion` extreme samples
excluded, and read the indexed sample.  `coord` is an `unsigned int` in C;
indices that fall outside the array there read out of bounds (undefined),
modelled as `none`.  A zero-size buffer reads `picdata[-1]` (undefined),
also `none`. -/
def measuredVal (pixels : List Nat) (percentilePixel : ℚ)
    (numPixelExclusion : Int) : Option Nat :=
  let szN := pixels.length
  let sz : Int := (szN : Int)
  if szN = 0 then none
  else
    let picdata := sortAsc pixels
    let direction := decide (picdata.getD 0 0 < picdata.getD (szN - 1) 0)
    let coord0 : Int :=
      if percentilePixel > 9999/100 then sz - 1
      else cFloor (percentilePixel * ((sz - 1 : Int) : ℚ) * (1/100))
    let coord : Int :=
      if sz - 1 - coord0 < numPixelExclusion then sz - 1 - numPixelExclusion
      else coord0
    if direction then
      if 0 ≤ coord ∧ coord < sz then some (picdata.getD coord.toNat 0) else none
    else
      let c : Int := if coord = 0 then 1 else coord
      if 0 ≤ sz - c ∧ sz - c < sz then some (picdata.getD (sz - c).toNat 0)
      else none

/-- The bin-lowering loop of `FindOptimumExposure` on an explicit iteration
budget.  The budget never runs out when it is at least the starting bin:
each iteration requires `2 < b` and at least halves `b` (see
`lowerBinAux_cond` below). -/
def lowerBinAux (maxAllowedExposure : ℚ) : Nat → ℚ → Int → ℚ × Int
  | 0, e, b => (e, b)
  | fuel + 1, e, b =>
    if e < maxAllowedExposure ∧ 2 < b then
      lowerBinAux maxAllowedExposure fuel (e * 4) (Int.tdiv b 2)
    else (e, b)

/-- The bin-lowering loop of `FindOptimumExposure` (ImageData.cpp lines
740-747): while the projected exposure is below the ceiling and the bin
exceeds 2, quadruple the exposure and halve the bin. -/
def lowerBinLoop (maxAllowedExposure : ℚ) (e : ℚ) (b : Int) : ℚ × Int :=
  lowerBinAux maxAllowedExposure b.toNat e b

/-- The bin-raising loop of `FindOptimumExposure` on an explicit iteration
budget.  Each iteration doubles a bin that is at least 1 while staying at
most `maxAllowedBin`, so a budget of `maxAllowedBin.toNat + 1` never runs
out for bins at least 1.  For a bin below 1 the C loop makes no progress on
the bin and need not terminate at all (a physical bin factor is always at
least 1). -/
def raiseBinAux (maxAllowedExposure : ℚ) (maxAllowedBin : Int) :
    Nat → ℚ → Int → ℚ × Int
  | 0, e, b => (e, b)
  | fuel + 1, e, b =>
    if maxAllowedExposure < e ∧ b * 2 ≤ maxAllowedBin then
      raiseBinAux maxAllowedExposure maxAllowedBin fuel (e / 4) (b * 2)
    else (e, b)

/-- The bin-raising loop of `FindOptimumExposure` (ImageData.cpp lines
752-756): while the projected exposure exceeds the ceiling and doubling the
bin stays within the bin ceiling, quarter the exposure and double the bin. -/
def raiseBinLoop (maxAllowedExposure : ℚ) (maxAllowedBin : Int) (e : ℚ) (b : Int) :
    ℚ × Int :=
  raiseBinAux maxAllowedExposure maxAllowedBin (maxAllowedBin.toNat + 1) e b

/-- One halving step of the bin factor (`bin_ /= 2` with C integer
division). -/
def halveBin (b : Int) : Int := Int.tdiv b 2

/-- The epilogue at label `ret` of `FindOptimumExposure` (ImageData.cpp lines
762-771): clamp the exposure to the ceiling from above, truncate it to whole
milliseconds, clamp the bin to at least 1 and then to at most the bin
ceiling. -/
def retClamp (maxAllowedExposure : ℚ) (maxAllowedBin : Int) (e : ℚ) (b : Int) :
    ℚ × Int :=
  let e1 := if e > maxAllowedExposure then maxAllowedExposure else e
  let b1 := if b < 1 then 1 else b
  let b2 := if b1 > maxAllowedBin then maxAllowedBin else b1
  (truncMs e1, b2)

/-- `CImageData::FindOptimumExposure` (binning variant, ImageData.cpp lines
670-777).  Returns `(targetExposure, bin)`.  The source divides the current
exposure by the measured sample with no guard (`... * exposure / val`,
line 727); the model returns `none` exactly where that division divides by
zero, and where the percentile index read is out of bounds. -/
def CImageData.FindOptimumExposure (img : CImageData) (percentilePixel : ℚ)
    (pixelTarget : Int) (maxAllowedExposure : ℚ) (maxAllowedBin : Int)
    (numPixelExclusion : Int) (pixelTargetUncertainty : Int) : Option (ℚ × Int) :=
  let exposure := img.m_metadata.exposureTime
  let bin := img.m_metadata.binX
  let pixels := img.m_imageData.getD []
  match measuredVal pixels percentilePixel numPixelExclusion with
  | none => none
  | some v =>
    if |(pixelTarget : ℚ) - (v : ℚ)| < (pixelTargetUncertainty : ℚ) then
      some (retClamp maxAllowedExposure maxAllowedBin exposure bin)
    else if (v : Nat) = 0 then none
    else
      let rawExp := (pixelTarget : ℚ) * exposure / (v : ℚ)
      let eb :=
        if img.m_metadata.binX = img.m_metadata.binY ∧ ¬ maxAllowedBin < 0 then
          if rawExp < maxAllowedExposure then lowerBinLoop maxAllowedExposure rawExp bin
          else raiseBinLoop maxAllowedExposure maxAllowedBin rawExp bin
        else (rawExp, bin)
      some (retClamp maxAllowedExposure maxAllowedBin eb.1 eb.2)

/-- The binning-disabled overload of `FindOptimumExposure` (ImageData.cpp
lines 779-783): delegates with `maxAllowedBin = -1` (which forces
`changeBin = false`) and discards the bin output. -/
def CImageData.FindOptimumExposureNoBin (img : CImageData) (percentilePixel : ℚ)
    (pixelTarget : Int) (maxAllowedExposure : ℚ) (numPixelExclusion : Int)
    (pixelTargetUncertainty : Int) : Option ℚ :=
  (img.FindOptimumExposure percentilePixel pixelTarget maxAllowedExposure (-1)
    numPixelExclusion pixelTargetUncertainty).map Prod.fst

/-- Pixel-by-pixel conversion of a whole buffer where the conversion of any
single pixel may be undefined: the result is defined only when every pixel's
is. -/
def mapOption (f : α → Option β) : List α → Option (List β)
  | [] => some []
  | x :: xs =>
    match f x, mapOption f xs with
    | some y, some ys => some (y :: ys)
    | _, _ => none

/-- One pixel of the preview bitmap built by `CImageData::ConvertJPEG`
(ImageData.cpp lines 607-632): saturated pixels are pure red, pixels above
the scaling maximum are orange, the rest get the gray level
`(uint8_t)(((p - min) / 0x100) * (0xffff / (float)(max - min)))` — note the
integer division by `0x100` before the scale factor is applied.  A zero
scaling range divides by zero in float, and a gray level outside `[0,255]`
is an undefined float-to-`uint8_t` cast; both are modelled as `none`. -/
def previewPixel (minV maxV : Nat) (p : Nat) : Option (Nat × Nat × Nat) :=
  if p = 0xffff then some (0xff, 0, 0)
  else if p > maxV then some (0xff, 0xa5, 0)
  else if maxV = minV then none
  else
    let q : Int := Int.tdiv ((p : Int) - (minV : Int)) 256
    let t : Int := cTrunc ((q : ℚ) * 0xffff / ((maxV : ℚ) - (minV : ℚ)))
    if 0 ≤ t ∧ t ≤ 255 then some (t.toNat, t.toNat, t.toNat) else none

/-- The RGB bitmap that `CImageData::ConvertJPEG` (ImageData.cpp lines
586-650) hands to the external `jpge` encoder: scaling bounds are either
auto-derived (`DataMin`/`DataMax`) or the clamped caller-fixed
`pixelMin`/`pixelMax` (lines 597-606), then every pixel is converted by
`previewPixel`. -/
def CImageData.ConvertJPEGBitmap (img : CImageData) : Option (List (Nat × Nat × Nat)) :=
  if ¬ img.HasData then none
  else
    let minV : Nat :=
      if img.autoscale then img.DataMin
      else (if img.pixelMin < 0 then 0
            else if img.pixelMin > 0xffff then 0xffff else img.pixelMin).toNat
    let maxV : Nat :=
      if img.autoscale then img.DataMax
      else (if img.pixelMax < 0 then 0xffff
            else if img.pixelMax > 0xffff then 0xffff else img.pixelMax).toNat
    mapOption (previewPixel minV maxV) (img.m_imageData.getD [])

/-- The candidate file name probed by the collision loop of
`CImageData::SaveFits` (ImageData.cpp lines 850-866): the bare base name
first, then `base_1`, `base_2`, ... -/
def fitsProbeName (base : String) (k : Nat) : String :=
  if k = 0 then base else base ++ "_" ++ toString k

/-- The collision counter loop of `SaveFits` (ImageData.cpp lines 852-866):
increment the counter while `fopen(name, "r")` finds an existing file.  The
set of files on disk is `fs`; `fs.length + 1` probes always reach a free
name. -/
def findFreeCtr (fs : List String) (base : String) : Nat → Nat → Nat
  | 0, k => k
  | fuel + 1, k =>
    if fitsProbeName base k ∈ fs then findFreeCtr fs base fuel (k + 1) else k

/-- The naming-and-creation step of `SaveFits` (ImageData.cpp lines 849-910):
probe `full_name` (without any extension) for collisions, append
`".fits[compress]"` to the free name, and call `fits_create_file`.  Per the
documented cfitsio contract, the `[compress]` specifier is extended-filename
syntax stripped from the on-disk name, and `fits_create_file` refuses to
create (and never truncates) a file that already exists, returning an error
that makes `SaveFits` return `false`.  Result: the created on-disk name (or
`none` on failure) and the new set of files on disk. -/
def saveFitsCreate (fs : List String) (base : String) : Option String × List String :=
  let k := findFreeCtr fs base (fs.length + 1) 0
  let chosen := fitsProbeName base k
  let target := chosen ++ ".fits"
  if target ∈ fs then (none, fs) else (some target, target :: fs)

/-- The default file base name of `SaveFits` when the format has no `%`
(ImageData.cpp lines 830-832 and 850): directory, separator, the compile-time
program name and the capture timestamp. -/
def fitsDefaultBase (dir fileStem : String) (timestamp : Nat) : String :=
  dir ++ "/" ++ fileStem ++ "_" ++ toString timestamp

/-- The four values of `ASI_EXPOSURE_STATUS`. -/
inductive ExpStatus
  | idle
  | working
  | success
  | failed
deriving Repr, DecidableEq

/-- The session status string `status_`.  Every constructor stands for one
assignment site in the sources (the exact text, including interpolated
numbers, is immaterial to the claims): e.g. `exposureStarted` is
`"Exposure started, waiting for <t> s"`, `setExposureTo` is
`"Set exposure to <t> s"`. -/
inductive CamStatusMsg
  | notInitialized
  | initialized
  | failedGetExpStatus
  | exposureInProgress
  | restartingExposure
  | failedStartExposure
  | exposureStarted
  | exposureFailed
  | successNoData
  | downloadingImage
  | failedDownload
  | imageDownloaded
  | unknownExposureStatus
  | setExposureTo
  | failedSetExposure
deriving Repr, DecidableEq

/-- The mutable state of a `CCameraUnit_ASI` session (CameraUnit_ASI.hpp
lines 33-135).  `nameHasASI120` abstracts
`std::string(cam_name).find("ASI120") != npos`. -/
structure CamState where
  init_ok : Bool
  capturing : Bool
  exposure_ : ℚ
  minExposure : ℚ
  maxExposure : ℚ
  binningX_ : Int
  binningY_ : Int
  roiLeft : Int
  roiRight : Int
  roiTop : Int
  roiBottom : Int
  CCDWidth_ : Int
  CCDHeight_ : Int
  supportedBins : List Int
  isUSB3 : Bool
  nameHasASI120 : Bool
  cam_name : String
  isDarkFrame : Bool
  status_ : CamStatusMsg
  image_data : Option CImageData
deriving Repr, DecidableEq

/-- Responses of the hardware SDK during one capture: success of each call
and the data it returns.  The exposure-status polling loop is collapsed to
the status in effect when the loop exits (`pollFinal` stays `working` when
the poll call itself errors out).  The tiered 1 ms / 100 ms / 1000 ms sleep
intervals are real-time behaviour with no effect on the resulting state. -/
structure HwOracle where
  getExpStatusOk : Bool
  expStatus0 : ExpStatus
  startExposureOk : Bool
  pollFinal : ExpStatus
  downloadOk : Bool
  pixels : List Nat
  temperature : ℚ
  gainRaw : Int
deriving Repr, DecidableEq

/-- `CCameraUnit_ASI::CaptureThread` of the current implementation
(CameraUnit_ASI.cpp lines 352-466): check the exposure status, start the
exposure, poll to completion, and on success download the pixels and build a
`CImageData` whose dimensions come from the stored ROI and binning.  `now`
stands for `getTime()` at thread start.  `GetOffset` is `_NotImplemented`
and returns 0; `GetMinGain`/`GetMaxGain` return the literals 0 and 100
(CameraUnit_ASI.hpp lines 108-113). -/
def CaptureThread (cam : CamState) (hw : HwOracle) (now : Nat) :
    CamState × Option CImageData :=
  if ¬ hw.getExpStatusOk then
    ({ cam with status_ := .failedGetExpStatus, capturing := false }, none)
  else if hw.expStatus0 = .working then
    ({ cam with status_ := .exposureInProgress, capturing := false }, none)
  else
    let cam1 := if hw.expStatus0 = .failed then { cam with status_ := .restartingExposure } else cam
    if ¬ hw.startExposureOk then
      ({ cam1 with status_ := .failedStartExposure, capturing := false }, none)
    else
      let cam2 := { cam1 with capturing := true, status_ := .exposureStarted }
      if hw.pollFinal = .failed then
        ({ cam2 with status_ := .exposureFailed, capturing := false }, none)
      else if hw.pollFinal = .idle then
        ({ cam2 with status_ := .successNoData, capturing := false }, none)
      else if hw.pollFinal = .success then
        let cam3 := { cam2 with status_ := .downloadingImage }
        if ¬ hw.downloadOk then
          ({ cam3 with status_ := .failedDownload, capturing := false }, none)
        else
          let iwid := Int.tdiv (cam.roiRight - cam.roiLeft) cam.binningX_
          let ihei := Int.tdiv (cam.roiBottom - cam.roiTop) cam.binningY_
          let md : CImageMetadata :=
            { exposureTime := cam.exposure_, binX := cam.binningX_, binY := cam.binningY_,
              imgTop := Int.tdiv cam.roiTop cam.binningY_,
              imgLeft := Int.tdiv cam.roiLeft cam.binningX_,
              temperature := hw.temperature, timestamp := now,
              cameraName := cam.cam_name, gain := hw.gainRaw, offset := 0,
              minGain := 0, maxGain := 100, extendedMetadata := [] }
          let img := CImageData.construct iwid ihei (some hw.pixels) md
            false false 100 (-1) (-1) true now
          let cam4 := { cam3 with status_ := .imageDownloaded, capturing := false, image_data := some img }
          (cam4, some img)
      else
        ({ cam2 with status_ := .unknownExposureStatus, capturing := false }, none)

/-- `CCameraUnit_ASI::CaptureImage` of the current implementation
(CameraUnit_ASI.cpp lines 584-609).  Result: final session state, whether a
capture worker thread was launched, and the returned image (`none` models
the empty default-constructed `CImageData`, which is what both guard paths
and the non-blocking form return).  For the detached non-blocking worker the
final state is the state after the worker has run to completion. -/
def CaptureImage (cam : CamState) (blocking : Bool) (hw : HwOracle) (now : Nat) :
    Except String (CamState × Bool × Option CImageData) :=
  if ¬ cam.init_ok then .ok (cam, false, none)
  else if cam.capturing then .ok (cam, false, none)
  else if blocking then
    let r := CaptureThread cam hw now
    .ok (r.1, true, r.2)
  else
    let r := CaptureThread cam hw now
    .ok (r.1, true, none)

/-- `CCameraUnit_ASI::CaptureThread` of the superseded revision
(CCameraUnit_ASI.cpp lines 302-398): same control flow, but the downloaded
frame spans the full sensor (`CCDWidth_ x CCDHeight_`) and the metadata is
set through the old constructor (exposure, bin, temperature, timestamp and
camera name only). -/
def CaptureThreadLegacy (cam : CamState) (hw : HwOracle) (now : Nat) :
    CamState × Option CImageData :=
  if ¬ hw.getExpStatusOk then
    ({ cam with status_ := .failedGetExpStatus, capturing := false }, none)
  else if hw.expStatus0 = .working then
    ({ cam with status_ := .exposureInProgress, capturing := false }, none)
  else
    let cam1 := if hw.expStatus0 = .failed then { cam with status_ := .restartingExposure } else cam
    if ¬ hw.startExposureOk then
      ({ cam1 with status_ := .failedStartExposure, capturing := false }, none)
    else
      let cam2 := { cam1 with capturing := true, status_ := .exposureStarted }
      if hw.pollFinal = .failed then
        ({ cam2 with status_ := .exposureFailed, capturing := false }, none)
      else if hw.pollFinal = .idle then
        ({ cam2 with status_ := .successNoData, capturing := false }, none)
      else if hw.pollFinal = .success then
        if ¬ hw.downloadOk then
          ({ cam2 with status_ := .failedDownload, capturing := false }, none)
        else
          let md : CImageMetadata :=
            { CImageMetadata.default0 with
              exposureTime := cam.exposure_, binX := cam.binningX_, binY := cam.binningY_,
              temperature := hw.temperature, timestamp := now,
              cameraName := cam.cam_name }
          let img := CImageData.construct cam.CCDWidth_ cam.CCDHeight_ (some hw.pixels) md
            false false 100 (-1) (-1) true now
          let cam3 := { cam2 with status_ := .imageDownloaded, capturing := false, image_data := some img }
          (cam3, some img)
      else
        ({ cam2 with status_ := .unknownExposureStatus, capturing := false }, none)

/-- `CCameraUnit_ASI::CaptureImage` of the superseded revision
(CCameraUnit_ASI.cpp lines 449-473): unlike the current implementation, the
uninitialized-session guard throws
`std::runtime_error("Camera not initialized")`. -/
def CaptureImageLegacy (cam : CamState) (blocking : Bool) (hw : HwOracle) (now : Nat) :
    Except String (CamState × Bool × Option CImageData) :=
  if ¬ cam.init_ok then .error "Camera not initialized"
  else if cam.capturing then .ok (cam, false, none)
  else if blocking then
    let r := CaptureThreadLegacy cam hw now
    .ok (r.1, true, r.2)
  else
    let r := CaptureThreadLegacy cam hw now
    .ok (r.1, true, none)

/-- `CCameraUnit_ASI::SetExposure` (identical in both revisions,
CameraUnit_ASI.cpp lines 622-650): silently rejects when uninitialized or
out of the exposure range; otherwise asks the SDK and updates the stored
exposure and status on success, or only the status on failure.  `hwOk` is
the success of `ASISetControlValue`. -/
def SetExposure (cam : CamState) (exposureInSeconds : ℚ) (hwOk : Bool) :
    Except String CamState :=
  if ¬ cam.init_ok then .ok cam
  else if exposureInSeconds < cam.minExposure then .ok cam
  else if exposureInSeconds > cam.maxExposure then .ok cam
  else if hwOk then
    .ok { cam with exposure_ := exposureInSeconds, status_ := .setExposureTo }
  else .ok { cam with status_ := .failedSetExposure }

/-- Responses of the SDK calls made by `SetBinningAndROI`:
`ASIGetROIFormat` (`none` = error, otherwise the previous
width/height/bin/bitdepth), `ASISetROIFormat`, `ASISetStartPos`, and the
restoring `ASISetROIFormat`. -/
structure RoiHw where
  getROIFormat : Option (Int × Int × Int × Int)
  setROIFormatOk : Bool
  setStartPosOk : Bool
  resetROIFormatOk : Bool
deriving Repr, DecidableEq

/-- `CCameraUnit_ASI::SetBinningAndROI` of the current implementation
(CameraUnit_ASI.cpp lines 788-882).  The function is annotated `_Catchable`
in the headers and throws `std::invalid_argument` on unequal or unsupported
bin factors and on the ASI120 packing constraint, and `std::runtime_error`
when the SDK reconfiguration calls fail; each `throw` is an
`Except.error` with the exception's message.  On success the stored ROI is
re-normalized to multiples of the bin factor. -/
def SetBinningAndROI (cam : CamState) (binX binY x_min x_max y_min y_max : Int)
    (hw : RoiHw) : Except String CamState :=
  if ¬ cam.init_ok then .ok cam
  else if binX ≠ binY then .error "BinX and BinY must be equal"
  else if ¬ binX ∈ cam.supportedBins then .error "Binning value is invalid."
  else
    let binY := binX
    let x_max1 := if x_max ≤ 0 then cam.CCDWidth_ else x_max
    let y_max1 := if y_max ≤ 0 then cam.CCDHeight_ else y_max
    let x_min1 := Int.tdiv x_min binX
    let x_max2 := Int.tdiv x_max1 binX
    let y_min1 := Int.tdiv y_min binY
    let y_max2 := Int.tdiv y_max1 binY
    let img_wid := x_max2 - x_min1
    let img_height := y_max2 - y_min1
    if ¬ cam.isUSB3 ∧ cam.nameHasASI120 ∧ ¬ (img_wid * img_height) % 1024 = 0 then
      .error "ASI120 only supports image sizes that are multiples of 1024"
    else
      match hw.getROIFormat with
      | none => .error "Failed to get current ROI format"
      | some _ =>
        if ¬ hw.setROIFormatOk then .error "Failed to set ROI format"
        else if ¬ hw.setStartPosOk then
          if ¬ hw.resetROIFormatOk then
            .error "Failed to reset ROI format after failed offset change"
          else .ok cam
        else
          .ok { cam with
            roiLeft := x_min1 * binX, roiRight := (x_min1 + img_wid) * binX,
            roiTop := y_min1 * binY, roiBottom := (y_min1 + img_height) * binY,
            binningX_ := binX, binningY_ := binY }

/-! Concrete fixtures used by the theorems below. -/

/-- Metadata of a test buffer: exposure `e` seconds, equal bin factors `b`,
a nonzero timestamp. -/
def mdExp (e : ℚ) (b : Int) : CImageMetadata :=
  { CImageMetadata.default0 with exposureTime := e, binX := b, binY := b, timestamp := 5 }

/-- A 2x2 buffer whose four pixels all read 1000, exposure 1.5 ms, bin 2. -/
def imgBand : CImageData :=
  ⟨2, 2, some [1000, 1000, 1000, 1000], mdExp (3/2000) 2, false, 100, -1, -1, true⟩

/-- A 2x2 buffer whose four pixels all read 1000, exposure 2 ms, bin 2. -/
def imgBandMs : CImageData :=
  ⟨2, 2, some [1000, 1000, 1000, 1000], mdExp (2/1000) 2, false, 100, -1, -1, true⟩

/-- A 2x2 buffer whose four pixels all read 20000, exposure 1 s, bin 1. -/
def imgTwenty : CImageData :=
  ⟨2, 2, some [20000, 20000, 20000, 20000], mdExp 1 1, false, 100, -1, -1, true⟩

/-- A 2x2 buffer whose four pixels all read 20000, exposure 1 s, bin 4. -/
def imgTwenty4 : CImageData :=
  ⟨2, 2, some [20000, 20000, 20000, 20000], mdExp 1 4, false, 100, -1, -1, true⟩

/-- A 2x2 buffer whose pixels are all zero, exposure 1 s, bin 1. -/
def imgZero : CImageData :=
  ⟨2, 2, some [0, 0, 0, 0], mdExp 1 1, false, 100, -1, -1, true⟩

/-- A 1x4 buffer (width 1, height 4). -/
def imgTall : CImageData :=
  ⟨1, 4, some [10, 20, 30, 40], mdExp 1 1, false, 100, -1, -1, true⟩

/-- A 2x2 buffer with pixels 1,2,3,4. -/
def imgQuad : CImageData :=
  ⟨2, 2, some [1, 2, 3, 4], mdExp 1 1, false, 100, -1, -1, true⟩

/-- A 2x1 buffer with pixels 0 and 255, in autoscale preview mode. -/
def imgGray : CImageData :=
  ⟨2, 1, some [0, 255], mdExp 1 1, false, 100, -1, -1, true⟩

/-- An initialized idle 2x2-sensor camera session. -/
def testCam : CamState :=
  { init_ok := true, capturing := false, exposure_ := 1/1000,
    minExposure := 1/1000, maxExposure := 200,
    binningX_ := 1, binningY_ := 1,
    roiLeft := 0, roiRight := 2, roiTop := 0, roiBottom := 2,
    CCDWidth_ := 2, CCDHeight_ := 2, supportedBins := [1, 2, 4],
    isUSB3 := true, nameHasASI120 := false, cam_name := "ZWO ASI",
    isDarkFrame := false, status_ := .initialized, image_data := none }

/-- A hardware oracle on which every SDK call succeeds and the exposure ends
in `success`. -/
def testHw : HwOracle :=
  ⟨true, .idle, true, .success, true, [0, 0, 0, 0], 20, 100⟩

/-- A hardware oracle for `SetBinningAndROI` on which every SDK call
succeeds. -/
def testRoiHw : RoiHw :=
  ⟨some (2, 2, 1, 2), true, true, true⟩

end Asicam

namespace Asicam

/-! ## C1: FITS file naming never overwrites, but the collision suffix is
ineffective -/

/-- C1 (code_bug): evaluating the `SaveFits` naming-and-creation step twice
with the same base name (same directory, pattern and timestamp) on an
initially empty directory.  The first call creates `<base>.fits`; the second
call probes `<base>` (without the `.fits` extension the created file has),
finds it free, never applies a numeric suffix, and then fails at
`fits_create_file` because `<base>.fits` already exists — so it creates no
second file (and also truncates nothing: the file set is unchanged).  The
claimed behaviour — a second, suffixed file — does not occur. -/
theorem saveFits_second_write_creates_nothing :
    saveFitsCreate [] (fitsDefaultBase "./fits" "ccameraunit" 1000)
      = (some "./fits/ccameraunit_1000.fits", ["./fits/ccameraunit_1000.fits"]) ∧
    saveFitsCreate ["./fits/ccameraunit_1000.fits"] (fitsDefaultBase "./fits" "ccameraunit" 1000)
      = (none, ["./fits/ccameraunit_1000.fits"]) := by
  constructor <;> decide

/-! ## C10: the division by the measured pixel value is unguarded -/

/-- C10 (confirmed): on an all-zero buffer the measured percentile sample is
0 and lies outside the tolerance band (`pixelTarget = 100` at least
`pixelTargetUncertainty = 10`), so control reaches
`targetExposure = pixelTarget * exposure / val` with `val = 0`; in the total
embedding with guarded division, `FindOptimumExposure` hits the error branch
of that division and returns `none`. -/
theorem findOptimumExposure_divides_by_zero_on_dark_frame :
    measuredVal [0, 0, 0, 0] 90 0 = some 0 ∧
    ¬ |(100 : ℚ) - ((0 : Nat) : ℚ)| < ((10 : Int) : ℚ) ∧
    imgZero.FindOptimumExposure 90 100 10 4 0 10 = none := by
  have hmv : measuredVal [0, 0, 0, 0] 90 0 = some 0 := by
    norm_num [measuredVal, sortAsc, insertSorted, cFloor]
    decide
  refine ⟨hmv, by norm_num, ?_⟩
  norm_num [CImageData.FindOptimumExposure, imgZero, hmv]

/-! ## C2: the ROI/binning path does throw -/

/-- C2 (counterexample): `SetBinningAndROI` of the current implementation,
called on an initialized idle session with unequal bin factors, throws
`std::invalid_argument("BinX and BinY must be equal")`
(CameraUnit_ASI.cpp line 797) instead of reporting through a return value —
the ROI/binning-configuration path is not exception-free. -/
theorem setBinningAndROI_throws_on_unequal_bins :
    SetBinningAndROI testCam 1 2 0 0 0 0 testRoiHw
      = Except.error "BinX and BinY must be equal" := by
  rfl

/-! ## C8: the capture guards -/

/-- C8 (counterexample): in the superseded revision
(CCameraUnit_ASI.cpp lines 452-455), `CaptureImage` invoked before the
session completed initialization throws
`std::runtime_error("Camera not initialized")` instead of returning an
empty buffer. -/
theorem captureImageLegacy_throws_when_uninitialized :
    CaptureImageLegacy { testCam with init_ok := false } true testHw 7
      = Except.error "Camera not initialized" := by
  rfl

/-! ## C3: the in-band path still clamps and truncates -/

/-- C3 (counterexample): a buffer whose measured percentile value (1000) is
strictly inside the band `pixelTarget 1000 ± 5` but whose current exposure is
1.5 ms: `FindOptimumExposure` returns 1 ms — the `ret` epilogue truncates the
exposure to whole milliseconds even on the in-band path — so the current
exposure is not returned unchanged. -/
theorem findOptimumExposure_truncates_in_band :
    imgBand.FindOptimumExposure 90 1000 10 4 0 5 = some (1/1000, 2) ∧
    (1 : ℚ)/1000 ≠ 3/2000 := by
  have hmv : measuredVal [1000, 1000, 1000, 1000] 90 0 = some 1000 := by
    norm_num [measuredVal, sortAsc, insertSorted, cFloor]
    decide
  constructor
  · norm_num [CImageData.FindOptimumExposure, imgBand, mdExp, hmv, retClamp,
      truncMs, cTrunc]
  · norm_num

/-! ## C4: the out-of-band exposure is truncated, not rounded to nearest -/

/-- C4 (counterexample): exposure 1 s, measured value 20000, target 20034
(outside the tolerance band of 10), binning disabled.  The reciprocity
formula gives 1.0017 s; the code returns 1.001 s, although 1.002 s is
strictly nearer — the exposure is truncated toward zero to a whole
millisecond, not rounded to the nearest millisecond. -/
theorem findOptimumExposure_no_nearest_rounding :
    imgTwenty.FindOptimumExposureNoBin 90 20034 10 0 10 = some (1001/1000) ∧
    |(10017 : ℚ)/10000 - 1002/1000| < |(10017 : ℚ)/10000 - 1001/1000| := by
  have hmv : measuredVal [20000, 20000, 20000, 20000] 90 0 = some 20000 := by
    norm_num [measuredVal, sortAsc, insertSorted, cFloor]
    decide
  constructor
  · norm_num [CImageData.FindOptimumExposureNoBin, CImageData.FindOptimumExposure,
      imgTwenty, mdExp, hmv, retClamp, truncMs, cTrunc]
  · rw [abs_of_neg (show (10017 : ℚ)/10000 - 1002/1000 < 0 by norm_num),
      abs_of_pos (show (0 : ℚ) < (10017 : ℚ)/10000 - 1001/1000 by norm_num)]
    norm_num

/-! ## C5: the bin-lowering loop stops at bin 2 -/

/-- C5 (counterexample): binning enabled, bin 4, projected exposure 2 s far
under the ceiling of 1000000 s.  The lowering loop runs only while the bin
exceeds 2, so it halves 4 to 2 and stops: the returned bin is 2, not 1, even
with unbounded exposure headroom — the bin does not decrease "down to 1"
from an even bin factor. -/
theorem findOptimumExposure_bin_stops_at_two :
    imgTwenty4.FindOptimumExposure 90 40000 1000000 4 0 5000 = some (8, 2) ∧
    (2 : Int) ≠ 1 := by
  have hmv : measuredVal [20000, 20000, 20000, 20000] 90 0 = some 20000 := by
    norm_num [measuredVal, sortAsc, insertSorted, cFloor]
    decide
  constructor
  · norm_num [CImageData.FindOptimumExposure, imgTwenty4, mdExp, hmv,
      lowerBinLoop, lowerBinAux, Int.tdiv, retClamp, truncMs, cTrunc]
  · norm_num

/-! ## C6: a binned buffer can have a zero dimension yet report data -/

/-- C6 (counterexample): `ApplyBinning(2,2)` on a 1x4 buffer stores width
`1 / 2 = 0` and height `4 / 2 = 2` with a freshly allocated zero-length —
but non-null — pixel array, so the result has a zero dimension while
`HasData()` still reports `true`; the claimed invariant "zero width or
height implies a null array and no data" is not preserved by
`ApplyBinning`. -/
theorem applyBinning_zero_width_keeps_data :
    (imgTall.ApplyBinning 2 2).m_imageWidth = 0 ∧
    (imgTall.ApplyBinning 2 2).m_imageHeight = 2 ∧
    (imgTall.ApplyBinning 2 2).HasData = true := by
  refine ⟨by decide, by decide, by decide⟩

/-! ## C9: the preview gray level is not the linear rescaling -/

/-- C9 (code_bug): a buffer with pixels 0 and 255 in autoscale mode derives
scaling bounds `min = 0`, `max = 255`.  The claimed linear rescaling maps
the pixel of value 255 (the maximum) to gray 255, but the code computes
`((p - min) / 0x100) * scale`, whose integer division by `0x100` yields 0
before the scale factor is applied: the emitted bitmap is entirely black. -/
theorem convertJPEG_low_range_renders_black :
    imgGray.ConvertJPEGBitmap = some [(0, 0, 0), (0, 0, 0)] ∧
    ((255 : ℚ) - 0) * 255 / (255 - 0) = 255 := by
  constructor
  · norm_num [CImageData.ConvertJPEGBitmap, imgGray, mdExp, CImageData.HasData,
      CImageData.DataMin, CImageData.DataMax, mapOption, previewPixel,
      Int.tdiv, cTrunc]
  · norm_num

/-- C2 (corrected): the exposure-setting path (`SetExposure`) and the
capture path of the current implementation (`CaptureImage`) never throw for
any session state, requested value and hardware response — every failure on
those two paths is reported only through return values and the status
message.  (The ROI/binning path is the exception, see the counterexample:
`SetBinningAndROI` is `_Catchable` and throws.) -/
theorem setExposure_captureImage_never_throw :
    (∀ (cam : CamState) (e : ℚ) (hwOk : Bool),
        (SetExposure cam e hwOk).isOk = true) ∧
    (∀ (cam : CamState) (blocking : Bool) (hw : HwOracle) (now : Nat),
        (CaptureImage cam blocking hw now).isOk = true) := by
  constructor
  · intro cam e hwOk
    unfold SetExposure
    repeat' split
    all_goals rfl
  · intro cam blocking hw now
    unfold CaptureImage
    repeat' split
    all_goals rfl

/-- C8 (corrected, amended): in the current implementation, `CaptureImage`
invoked before initialization or while a capture is in progress returns the
unchanged session state (in particular an unchanged status), launches no
worker thread, and hands back an empty image; in the superseded revision the
while-capturing guard behaves the same way (its uninitialized guard throws
instead, see the counterexample). -/
theorem captureImage_guard_paths :
    (∀ (cam : CamState) (blocking : Bool) (hw : HwOracle) (now : Nat),
        cam.init_ok = false →
        CaptureImage cam blocking hw now = .ok (cam, false, none)) ∧
    (∀ (cam : CamState) (blocking : Bool) (hw : HwOracle) (now : Nat),
        cam.capturing = true →
        CaptureImage cam blocking hw now = .ok (cam, false, none)) ∧
    (∀ (cam : CamState) (blocking : Bool) (hw : HwOracle) (now : Nat),
        cam.init_ok = true → cam.capturing = true →
        CaptureImageLegacy cam blocking hw now = .ok (cam, false, none)) := by
  refine ⟨?_, ?_, ?_⟩
  · intro cam blocking hw now h
    simp [CaptureImage, h]
  · intro cam blocking hw now h
    simp [CaptureImage, h]
  · intro cam blocking hw now h1 h2
    simp [CaptureImageLegacy, h1, h2]

/-- Witness for `captureImage_guard_paths`: the guards evaluated on the
concrete test session, busy and uninitialized. -/
theorem captureImage_guard_paths_witness :
    CaptureImage { testCam with init_ok := false } true testHw 3
      = .ok ({ testCam with init_ok := false }, false, none) ∧
    CaptureImage { testCam with capturing := true } false testHw 3
      = .ok ({ testCam with capturing := true }, false, none) ∧
    CaptureImageLegacy { testCam with capturing := true } true testHw 3
      = .ok ({ testCam with capturing := true }, false, none) :=
  ⟨captureImage_guard_paths.1 _ true testHw 3 rfl,
   captureImage_guard_paths.2.1 _ false testHw 3 rfl,
   captureImage_guard_paths.2.2 _ true testHw 3 rfl rfl⟩

/-! ## Helper lemmas about the clamping epilogue -/

theorem ite_gt_eq_min (a m : ℚ) : (if a > m then m else a) = min a m := by
  rcases le_or_lt a m with h | h
  · rw [if_neg (not_lt.mpr h)]
    exact (min_eq_left h).symm
  · rw [if_pos h]
    exact (min_eq_right h.le).symm

theorem ite_gt_eq_min_int (b m : Int) : (if b > m then m else b) = min b m := by
  rcases le_or_lt b m with h | h
  · rw [if_neg (not_lt.mpr h)]
    exact (min_eq_left h).symm
  · rw [if_pos h]
    exact (min_eq_right h.le).symm

theorem ite_lt_eq_max_int (b : Int) : (if b < 1 then 1 else b) = max b 1 := by
  rcases le_or_lt 1 b with h | h
  · rw [if_neg (not_lt.mpr h)]
    exact (max_eq_left h).symm
  · rw [if_pos h]
    exact (max_eq_right h.le).symm

theorem retClamp_eq (maxE : ℚ) (maxB : Int) (e : ℚ) (b : Int) :
    retClamp maxE maxB e b = (truncMs (min e maxE), min (max b 1) maxB) := by
  simp only [retClamp, ite_gt_eq_min, ite_gt_eq_min_int, ite_lt_eq_max_int]

theorem cTrunc_intCast (n : Int) : cTrunc (n : ℚ) = n := by
  unfold cTrunc
  rcases le_or_lt 0 (n : ℚ) with h | h
  · rw [if_pos h, Int.floor_intCast]
  · rw [if_neg (not_le.mpr h)]
    rw [show -((n : ℚ)) = ((-n : Int) : ℚ) by push_cast; ring, Int.floor_intCast]
    ring

theorem truncMs_whole_ms (n : Int) : truncMs ((n : ℚ)/1000) = (n : ℚ)/1000 := by
  unfold truncMs
  rw [div_mul_cancel₀ _ (by norm_num : (1000 : ℚ) ≠ 0), cTrunc_intCast]

/-! ## C3 amended: the in-band path returns the clamped, millisecond-truncated
current exposure and the range-clamped current bin -/

/-- C3 (corrected, amended): whenever the measured percentile value lies
strictly within `pixelTarget ± pixelTargetUncertainty`, `FindOptimumExposure`
skips the reciprocity and binning logic but still runs the `ret` epilogue:
it returns the current exposure clamped to the ceiling and truncated to a
whole millisecond, and the current bin factor clamped into
`[1, maxAllowedBin]`.  In particular the exposure and bin are returned
unchanged exactly when the current exposure is a whole number of
milliseconds not exceeding the ceiling and the bin is already inside
`[1, maxAllowedBin]`. -/
theorem findOptimumExposure_in_band_clamps :
    (∀ (img : CImageData) (p : ℚ) (target npe unc maxB : Int) (maxE : ℚ) (v : Nat),
        measuredVal (img.m_imageData.getD []) p npe = some v →
        |(target : ℚ) - (v : ℚ)| < (unc : ℚ) →
        img.FindOptimumExposure p target maxE maxB npe unc =
          some (truncMs (min img.m_metadata.exposureTime maxE),
                min (max img.m_metadata.binX 1) maxB)) ∧
    (∀ (img : CImageData) (p : ℚ) (target npe unc maxB : Int) (maxE : ℚ) (v : Nat)
        (n : Int),
        measuredVal (img.m_imageData.getD []) p npe = some v →
        |(target : ℚ) - (v : ℚ)| < (unc : ℚ) →
        img.m_metadata.exposureTime = (n : ℚ)/1000 →
        img.m_metadata.exposureTime ≤ maxE →
        1 ≤ img.m_metadata.binX → img.m_metadata.binX ≤ maxB →
        img.FindOptimumExposure p target maxE maxB npe unc =
          some (img.m_metadata.exposureTime, img.m_metadata.binX)) := by
  have base : ∀ (img : CImageData) (p : ℚ) (target npe unc maxB : Int) (maxE : ℚ)
      (v : Nat),
      measuredVal (img.m_imageData.getD []) p npe = some v →
      |(target : ℚ) - (v : ℚ)| < (unc : ℚ) →
      img.FindOptimumExposure p target maxE maxB npe unc =
        some (truncMs (min img.m_metadata.exposureTime maxE),
              min (max img.m_metadata.binX 1) maxB) := by
    intro img p target npe unc maxB maxE v hmv hband
    simp only [CImageData.FindOptimumExposure, hmv, if_pos hband, retClamp_eq]
  refine ⟨base, ?_⟩
  intro img p target npe unc maxB maxE v n hmv hband hms hle hb1 hbM
  rw [base img p target npe unc maxB maxE v hmv hband,
    min_eq_left hle, max_eq_left hb1, min_eq_left hbM, hms, truncMs_whole_ms]

/-- Witness for `findOptimumExposure_in_band_clamps`: a buffer with an exact
2 ms exposure, bin 2, measured value 1000 inside the band `1000 ± 5`, ceiling
10 s and bin ceiling 4 — returned unchanged. -/
theorem findOptimumExposure_in_band_clamps_witness :
    imgBandMs.FindOptimumExposure 90 1000 10 4 0 5
      = some (imgBandMs.m_metadata.exposureTime, imgBandMs.m_metadata.binX) := by
  have hmv : measuredVal (imgBandMs.m_imageData.getD []) 90 0 = some 1000 := by
    norm_num [imgBandMs, measuredVal, sortAsc, insertSorted, cFloor]
    decide
  exact findOptimumExposure_in_band_clamps.2 imgBandMs 90 1000 0 5 4 10 1000 2
    hmv (by norm_num) (by norm_num [imgBandMs, mdExp]) (by norm_num [imgBandMs, mdExp])
    (by norm_num [imgBandMs, mdExp]) (by norm_num [imgBandMs, mdExp])

/-! ## C4 amended: out-of-band, binning disabled -/

/-- C4 (corrected, amended): with binning disabled (the overload that fixes
`maxAllowedBin = -1`), an out-of-band measurement yields the reciprocity
exposure `pixelTarget * currentExposure / val`, clamped from above to the
ceiling and truncated toward zero to a whole millisecond (not rounded to the
nearest millisecond, and with no lower clamp); in particular, for exposure
1 s, measured value 20000, target 40000 and tolerance 5000 it returns
exactly 2 s. -/
theorem findOptimumExposureNoBin_reciprocity :
    (∀ (img : CImageData) (p : ℚ) (target npe unc : Int) (maxE : ℚ) (v : Nat),
        measuredVal (img.m_imageData.getD []) p npe = some v →
        ¬ |(target : ℚ) - (v : ℚ)| < (unc : ℚ) →
        v ≠ 0 →
        img.FindOptimumExposureNoBin p target maxE npe unc =
          some (truncMs (min ((target : ℚ) * img.m_metadata.exposureTime / (v : ℚ)) maxE))) ∧
    imgTwenty.FindOptimumExposureNoBin 90 40000 10 0 5000 = some 2 := by
  have base : ∀ (img : CImageData) (p : ℚ) (target npe unc : Int) (maxE : ℚ) (v : Nat),
      measuredVal (img.m_imageData.getD []) p npe = some v →
      ¬ |(target : ℚ) - (v : ℚ)| < (unc : ℚ) →
      v ≠ 0 →
      img.FindOptimumExposureNoBin p target maxE npe unc =
        some (truncMs (min ((target : ℚ) * img.m_metadata.exposureTime / (v : ℚ)) maxE)) := by
    intro img p target npe unc maxE v hmv hband hv
    have hcb : ¬ (img.m_metadata.binX = img.m_metadata.binY ∧ ¬ (-1 : Int) < 0) := by
      intro h
      exact h.2 (by norm_num)
    simp only [CImageData.FindOptimumExposureNoBin, CImageData.FindOptimumExposure,
      hmv, if_neg hband, if_neg hv, if_neg hcb, retClamp_eq]
    rfl
  refine ⟨base, ?_⟩
  have hmv : measuredVal (imgTwenty.m_imageData.getD []) 90 0 = some 20000 := by
    norm_num [imgTwenty, measuredVal, sortAsc, insertSorted, cFloor]
    decide
  rw [base imgTwenty 90 40000 0 5000 10 20000 hmv (by norm_num) (by norm_num)]
  norm_num [imgTwenty, mdExp]
  rw [show (2 : ℚ) = ((2000 : Int) : ℚ)/1000 by norm_num]
  rw [truncMs_whole_ms]

/-- Witness for `findOptimumExposureNoBin_reciprocity`: the reciprocity
formula applied at exposure 1 s, measured value 20000, target 20034. -/
theorem findOptimumExposureNoBin_reciprocity_witness :
    imgTwenty.FindOptimumExposureNoBin 90 20034 100 0 10
      = some (truncMs (min ((20034 : ℚ) * imgTwenty.m_metadata.exposureTime
          / ((20000 : Nat) : ℚ)) 100)) := by
  have hmv : measuredVal (imgTwenty.m_imageData.getD []) 90 0 = some 20000 := by
    norm_num [imgTwenty, measuredVal, sortAsc, insertSorted, cFloor]
    decide
  exact findOptimumExposureNoBin_reciprocity.1 imgTwenty 90 20034 0 10 100 20000
    hmv (by norm_num) (by norm_num)

/-! ## Lemmas about the bin-adjustment loops -/

theorem lowerBinAux_char (maxE : ℚ) :
    ∀ (fuel : Nat) (e : ℚ) (b : Int), b.toNat ≤ fuel → 1 ≤ b →
      ∃ k : Nat, lowerBinAux maxE fuel e b = (e * 4 ^ k, halveBin^[k] b) ∧
        1 ≤ halveBin^[k] b ∧
        ¬ ((lowerBinAux maxE fuel e b).1 < maxE ∧ 2 < (lowerBinAux maxE fuel e b).2) := by
  intro fuel
  induction fuel with
  | zero =>
    intro e b hf hb
    exact absurd hb (by omega)
  | succ n ih =>
    intro e b hf hb
    by_cases hc : e < maxE ∧ 2 < b
    · have hdiv : Int.tdiv b 2 = b / 2 := Int.tdiv_eq_ediv (by omega) (by omega)
      have hb2 : (1 : Int) ≤ Int.tdiv b 2 := by rw [hdiv]; omega
      have hf2 : (Int.tdiv b 2).toNat ≤ n := by rw [hdiv]; omega
      obtain ⟨k, hk, h1, hstop⟩ := ih (e * 4) (Int.tdiv b 2) hf2 hb2
      have hr : lowerBinAux maxE (n + 1) e b = lowerBinAux maxE n (e * 4) (Int.tdiv b 2) := by
        simp only [lowerBinAux, if_pos hc]
      refine ⟨k + 1, ?_, ?_, ?_⟩
      · rw [hr, hk, Function.iterate_succ_apply]
        have hhb : halveBin b = Int.tdiv b 2 := rfl
        rw [hhb]
        congr 1
        ring
      · rw [Function.iterate_succ_apply]
        exact h1
      · rw [hr]
        exact hstop
    · have hr : lowerBinAux maxE (n + 1) e b = (e, b) := by
        simp only [lowerBinAux, if_neg hc]
      refine ⟨0, ?_, ?_, ?_⟩
      · rw [hr]
        simp
      · simpa using hb
      · rw [hr]
        exact hc

theorem lowerBinAux_fst_nonneg (maxE : ℚ) :
    ∀ (fuel : Nat) (e : ℚ) (b : Int), 0 ≤ e → 0 ≤ (lowerBinAux maxE fuel e b).1 := by
  intro fuel
  induction fuel with
  | zero =>
    intro e b he
    simpa [lowerBinAux] using he
  | succ n ih =>
    intro e b he
    by_cases hc : e < maxE ∧ 2 < b
    · rw [show lowerBinAux maxE (n + 1) e b = lowerBinAux maxE n (e * 4) (Int.tdiv b 2) by
        simp only [lowerBinAux, if_pos hc]]
      exact ih (e * 4) (Int.tdiv b 2) (by positivity)
    · rw [show lowerBinAux maxE (n + 1) e b = (e, b) by simp only [lowerBinAux, if_neg hc]]
      exact he

theorem raiseBinAux_fst_nonneg (maxE : ℚ) (maxB : Int) :
    ∀ (fuel : Nat) (e : ℚ) (b : Int), 0 ≤ e → 0 ≤ (raiseBinAux maxE maxB fuel e b).1 := by
  intro fuel
  induction fuel with
  | zero =>
    intro e b he
    simpa [raiseBinAux] using he
  | succ n ih =>
    intro e b he
    by_cases hc : maxE < e ∧ b * 2 ≤ maxB
    · rw [show raiseBinAux maxE maxB (n + 1) e b = raiseBinAux maxE maxB n (e / 4) (b * 2) by
        simp only [raiseBinAux, if_pos hc]]
      exact ih (e / 4) (b * 2) (by positivity)
    · rw [show raiseBinAux maxE maxB (n + 1) e b = (e, b) by simp only [raiseBinAux, if_neg hc]]
      exact he

theorem truncMs_le (q : ℚ) (h : 0 ≤ q) : truncMs q ≤ q := by
  unfold truncMs cTrunc
  rw [if_pos (by positivity : (0 : ℚ) ≤ q * 1000)]
  rw [div_le_iff₀ (by norm_num : (0 : ℚ) < 1000)]
  exact Int.floor_le (q * 1000)

/-! ## C5 amended: the lowering loop halves the bin only while it exceeds 2,
and the returned pair respects the floors and ceilings -/

/-- C5 (corrected, amended): (i) from any bin of at least 1, the lowering
loop returns `(e·4^k, bin halved k times)` for some `k` — the projected
exposure is multiplied by 4 for each halving — the resulting bin stays at
least 1, and it stops only once the bin is at most 2 (it reaches 1 only from
odd bin values) or the projected exposure has reached the ceiling; (ii) on
any out-of-band run of `FindOptimumExposure` with a nonnegative projected
exposure, a nonnegative exposure ceiling and a bin ceiling of at least 1,
the returned exposure never exceeds the ceiling and the returned bin never
drops below 1. -/
theorem lowerBin_halving_and_bounds :
    (∀ (maxE e : ℚ) (b : Int), 1 ≤ b →
      ∃ k : Nat, lowerBinLoop maxE e b = (e * 4 ^ k, halveBin^[k] b) ∧
        1 ≤ (lowerBinLoop maxE e b).2 ∧
        ¬ ((lowerBinLoop maxE e b).1 < maxE ∧ 2 < (lowerBinLoop maxE e b).2)) ∧
    (∀ (img : CImageData) (p : ℚ) (target npe unc maxB : Int) (maxE : ℚ) (v : Nat)
        (e' : ℚ) (b' : Int),
      measuredVal (img.m_imageData.getD []) p npe = some v →
      ¬ |(target : ℚ) - (v : ℚ)| < (unc : ℚ) →
      v ≠ 0 →
      0 ≤ (target : ℚ) * img.m_metadata.exposureTime →
      0 ≤ maxE → 1 ≤ maxB →
      img.FindOptimumExposure p target maxE maxB npe unc = some (e', b') →
      e' ≤ maxE ∧ 1 ≤ b') := by
  constructor
  · intro maxE e b hb
    obtain ⟨k, hk, h1, hstop⟩ := lowerBinAux_char maxE b.toNat e b le_rfl hb
    have hloop : lowerBinLoop maxE e b = lowerBinAux maxE b.toNat e b := rfl
    refine ⟨k, by rw [hloop, hk], ?_, by rw [hloop]; exact hstop⟩
    rw [hloop, hk]
    exact h1
  · intro img p target npe unc maxB maxE v e' b' hmv hband hv hnn hmE hmB heq
    have hv0 : (0 : ℚ) < (v : ℚ) := by
      have := Nat.pos_of_ne_zero hv
      exact_mod_cast this
    have hraw : 0 ≤ (target : ℚ) * img.m_metadata.exposureTime / (v : ℚ) :=
      div_nonneg hnn hv0.le
    simp only [CImageData.FindOptimumExposure, hmv, if_neg hband, if_neg hv,
      retClamp_eq, Option.some.injEq, Prod.mk.injEq] at heq
    obtain ⟨he, hb⟩ := heq
    have hEB : 0 ≤ (if img.m_metadata.binX = img.m_metadata.binY ∧ ¬ maxB < 0 then
        if (target : ℚ) * img.m_metadata.exposureTime / (v : ℚ) < maxE then
          lowerBinLoop maxE ((target : ℚ) * img.m_metadata.exposureTime / (v : ℚ))
            img.m_metadata.binX
        else
          raiseBinLoop maxE maxB ((target : ℚ) * img.m_metadata.exposureTime / (v : ℚ))
            img.m_metadata.binX
      else ((target : ℚ) * img.m_metadata.exposureTime / (v : ℚ), img.m_metadata.binX)).1 := by
      split
      · split
        · exact lowerBinAux_fst_nonneg maxE _ _ _ hraw
        · exact raiseBinAux_fst_nonneg maxE maxB _ _ _ hraw
      · exact hraw
    constructor
    · rw [← he]
      calc truncMs _ ≤ _ := truncMs_le _ (le_min hEB hmE)
        _ ≤ maxE := min_le_right _ _
    · rw [← hb]
      exact le_min (le_max_right _ 1) hmB

/-- Witness for `lowerBin_halving_and_bounds`: (i) the loop at ceiling 10,
exposure 1 s, bin 4 (one halving, `k = 1`); (ii) the bounds on the concrete
out-of-band run with bin 4, measured value 20000 and ceiling 1000000 s. -/
theorem lowerBin_halving_and_bounds_witness :
    (∃ k : Nat, lowerBinLoop 10 1 4 = (1 * 4 ^ k, halveBin^[k] 4) ∧
      1 ≤ (lowerBinLoop 10 1 4).2 ∧
      ¬ ((lowerBinLoop 10 1 4).1 < 10 ∧ 2 < (lowerBinLoop 10 1 4).2)) ∧
    ((8 : ℚ) ≤ 1000000 ∧ (1 : Int) ≤ 2) := by
  constructor
  · exact lowerBin_halving_and_bounds.1 10 1 4 (by norm_num)
  · have hmv : measuredVal [20000, 20000, 20000, 20000] 90 0 = some 20000 := by
      norm_num [measuredVal, sortAsc, insertSorted, cFloor]
      decide
    have heval : imgTwenty4.FindOptimumExposure 90 40000 1000000 4 0 5000 = some (8, 2) := by
      norm_num [CImageData.FindOptimumExposure, imgTwenty4, mdExp, hmv,
        lowerBinLoop, lowerBinAux, Int.tdiv, retClamp, truncMs, cTrunc]
    exact lowerBin_halving_and_bounds.2 imgTwenty4 90 40000 0 5000 4 1000000 20000 8 2
      hmv (by norm_num) (by norm_num) (by norm_num [imgTwenty4, mdExp])
      (by norm_num) (by norm_num) heval

/-! ## Lemmas for the size invariant -/

theorem int16wrap_eq_self {n : Int} (h0 : 0 ≤ n) (h1 : n ≤ 32767) :
    int16wrap n = n := by
  unfold int16wrap
  omega

theorem mkEmpty_sizeInv : CImageData.mkEmpty.SizeInv := by
  simp [CImageData.SizeInv, CImageData.mkEmpty]

theorem mkEmpty_noData : CImageData.mkEmpty.HasData = false := by
  simp [CImageData.HasData, CImageData.mkEmpty]

theorem sizeInv_of_some {img : CImageData} {l : List Nat}
    (hd : img.m_imageData = some l) :
    img.SizeInv ↔ ((l.length : Int) = img.m_imageWidth * img.m_imageHeight ∧
      0 ≤ img.m_imageWidth ∧ 0 ≤ img.m_imageHeight) := by
  unfold CImageData.SizeInv
  rw [hd]

theorem construct_sizeInv (w h : Int) (d : Option (List Nat)) (md : CImageMetadata)
    (is8 ej : Bool) (q pMin pMax : Int) (asc : Bool) (now : Nat) :
    (CImageData.construct w h d md is8 ej q pMin pMax asc now).SizeInv := by
  by_cases hwh : w ≤ 0 ∨ h ≤ 0
  · rw [CImageData.construct, if_pos hwh]
    exact mkEmpty_sizeInv
  · push_neg at hwh
    rw [CImageData.construct, if_neg (by push_neg; exact hwh)]
    refine (sizeInv_of_some rfl).mpr ?_
    have hlen : ∀ dl : List Nat, (dl.length : Int) = w * h →
        ((dl.length : Int) = w * h ∧ (0:Int) ≤ w ∧ (0:Int) ≤ h) :=
      fun dl hl => ⟨hl, hwh.1.le, hwh.2.le⟩
    rcases d with _ | l
    · exact ⟨by simp [Int.toNat_of_nonneg (mul_nonneg hwh.1.le hwh.2.le)],
        hwh.1.le, hwh.2.le⟩
    · cases is8
      · exact ⟨by simp [Int.toNat_of_nonneg (mul_nonneg hwh.1.le hwh.2.le)],
          hwh.1.le, hwh.2.le⟩
      · exact ⟨by simp [Int.toNat_of_nonneg (mul_nonneg hwh.1.le hwh.2.le)],
          hwh.1.le, hwh.2.le⟩

theorem construct_zeroDim (w h : Int) (d : Option (List Nat)) (md : CImageMetadata)
    (is8 ej : Bool) (q pMin pMax : Int) (asc : Bool) (now : Nat) :
    (CImageData.construct w h d md is8 ej q pMin pMax asc now).ZeroDimNoData := by
  by_cases hwh : w ≤ 0 ∨ h ≤ 0
  · rw [CImageData.ZeroDimNoData, CImageData.construct, if_pos hwh]
    intro _
    exact mkEmpty_noData
  · push_neg at hwh
    rw [CImageData.ZeroDimNoData, CImageData.construct, if_neg (by push_neg; exact hwh)]
    intro hdim
    exfalso
    rcases hdim with hz | hz
    · exact absurd hz (by show w ≠ 0; omega)
    · exact absurd hz (by show h ≠ 0; omega)

theorem construct_noData_of_nonpos (w h : Int) (d : Option (List Nat))
    (md : CImageMetadata) (is8 ej : Bool) (q pMin pMax : Int) (asc : Bool) (now : Nat)
    (hwh : w ≤ 0 ∨ h ≤ 0) :
    (CImageData.construct w h d md is8 ej q pMin pMax asc now).HasData = false := by
  rw [CImageData.construct, if_pos hwh]
  exact mkEmpty_noData

theorem assign_sizeInv (rhs : CImageData) (h : rhs.SizeInv) :
    (CImageData.assign rhs).SizeInv := by
  by_cases hg : rhs.m_imageWidth = 0 ∨ rhs.m_imageHeight = 0 ∨ rhs.m_imageData = none
  · rw [CImageData.assign, if_pos hg]
    exact mkEmpty_sizeInv
  · push_neg at hg
    rcases hd : rhs.m_imageData with _ | l
    · exact absurd hd hg.2.2
    · have h' := (sizeInv_of_some hd).mp h
      rw [CImageData.assign, if_neg (by push_neg; exact hg)]
      refine (sizeInv_of_some rfl).mpr ?_
      exact ⟨by simp [Int.toNat_of_nonneg (mul_nonneg h'.2.1 h'.2.2)], h'.2.1, h'.2.2⟩

theorem assign_zeroDim (rhs : CImageData) : (CImageData.assign rhs).ZeroDimNoData := by
  by_cases hg : rhs.m_imageWidth = 0 ∨ rhs.m_imageHeight = 0 ∨ rhs.m_imageData = none
  · rw [CImageData.ZeroDimNoData, CImageData.assign, if_pos hg]
    intro _
    exact mkEmpty_noData
  · push_neg at hg
    rw [CImageData.ZeroDimNoData, CImageData.assign, if_neg (by push_neg; exact hg)]
    intro hdim
    exfalso
    rcases hdim with hz | hz
    · exact hg.1 hz
    · exact hg.2.1 hz

theorem clearImage_sizeInv (img : CImageData) :
    img.ClearImage.SizeInv ∧ img.ClearImage.HasData = false := by
  constructor
  · simp [CImageData.SizeInv, CImageData.ClearImage]
  · simp [CImageData.HasData, CImageData.ClearImage]

theorem add_sizeInv (lhs rhs : CImageData) (hL : lhs.SizeInv) (hR : rhs.SizeInv) :
    (lhs.Add rhs).SizeInv := by
  by_cases hRd : ¬ rhs.HasData
  · rw [CImageData.Add, if_pos hRd]
    exact hL
  · by_cases hLd : ¬ lhs.HasData
    · rw [CImageData.Add, if_neg hRd, if_pos hLd]
      exact assign_sizeInv rhs hR
    · by_cases hdim : rhs.m_imageWidth ≠ lhs.m_imageWidth ∨
          rhs.m_imageHeight ≠ lhs.m_imageHeight
      · rw [CImageData.Add, if_neg hRd, if_neg hLd, if_pos hdim]
        exact hL
      · rcases hd : lhs.m_imageData with _ | ll
        · rw [not_not] at hLd
          rw [CImageData.HasData, hd] at hLd
          simp at hLd
        · have hL' := (sizeInv_of_some hd).mp hL
          rw [CImageData.Add, if_neg hRd, if_neg hLd, if_neg hdim]
          refine (sizeInv_of_some rfl).mpr ?_
          exact ⟨by simp [Int.toNat_of_nonneg (mul_nonneg hL'.2.1 hL'.2.2)],
            hL'.2.1, hL'.2.2⟩

theorem add_zeroDim (lhs rhs : CImageData) (hzL : lhs.ZeroDimNoData) :
    (lhs.Add rhs).ZeroDimNoData := by
  by_cases hRd : ¬ rhs.HasData
  · rw [CImageData.Add, if_pos hRd]
    exact hzL
  · by_cases hLd : ¬ lhs.HasData
    · rw [CImageData.Add, if_neg hRd, if_pos hLd]
      exact assign_zeroDim rhs
    · by_cases hdim : rhs.m_imageWidth ≠ lhs.m_imageWidth ∨
          rhs.m_imageHeight ≠ lhs.m_imageHeight
      · rw [CImageData.Add, if_neg hRd, if_neg hLd, if_pos hdim]
        exact hzL
      · rw [CImageData.Add, if_neg hRd, if_neg hLd, if_neg hdim]
        intro hdim0
        exfalso
        rw [not_not] at hLd
        have := hzL (by simpa using hdim0)
        rw [this] at hLd
        exact Bool.false_ne_true hLd

theorem binStep_length (s : List Nat) (w bx bY nw : Int) (tgt : List Nat)
    (rc : Nat × Nat) : (binStep s w bx bY nw tgt rc).length = tgt.length := by
  simp only [binStep]
  split
  · exact List.length_set tgt _ _
  · rfl

theorem foldl_binStep_length (s : List Nat) (w bx bY nw : Int) :
    ∀ (ps : List (Nat × Nat)) (tgt : List Nat),
      (ps.foldl (binStep s w bx bY nw) tgt).length = tgt.length := by
  intro ps
  induction ps with
  | nil => intro tgt; rfl
  | cons rc ps ih =>
    intro tgt
    rw [List.foldl_cons, ih, binStep_length]

theorem applyBinning_sizeInv (img : CImageData) (binX binY : Int)
    (h : img.SizeInv) (hbx : 1 ≤ binX) (hby : 1 ≤ binY)
    (hw : img.m_imageWidth ≤ 32767) (hh : img.m_imageHeight ≤ 32767) :
    (img.ApplyBinning binX binY).SizeInv := by
  rcases hd : img.m_imageData with _ | l
  · have heq : img.ApplyBinning binX binY = img := by
      rw [CImageData.ApplyBinning, if_pos (by simp [CImageData.HasData, hd])]
    rw [heq]
    exact h
  · have h' := (sizeInv_of_some hd).mp h
    obtain ⟨hlen, hw0, hh0⟩ := h'
    by_cases h11 : binX = 1 ∧ binY = 1
    · have heq : img.ApplyBinning binX binY = img := by
        rw [CImageData.ApplyBinning, if_neg (by simp [CImageData.HasData, hd]),
          if_pos h11]
      rw [heq]
      exact h
    · have hwW : int16wrap (Int.tdiv img.m_imageWidth binX)
          = Int.tdiv img.m_imageWidth binX := by
        rw [Int.tdiv_eq_ediv hw0 (by omega)]
        exact int16wrap_eq_self (Int.ediv_nonneg hw0 (by omega))
          (le_trans (Int.ediv_le_self _ hw0) hw)
      have hwH : int16wrap (Int.tdiv img.m_imageHeight binY)
          = Int.tdiv img.m_imageHeight binY := by
        rw [Int.tdiv_eq_ediv hh0 (by omega)]
        exact int16wrap_eq_self (Int.ediv_nonneg hh0 (by omega))
          (le_trans (Int.ediv_le_self _ hh0) hh)
      have hW0 : 0 ≤ int16wrap (Int.tdiv img.m_imageWidth binX) := by
        rw [hwW, Int.tdiv_eq_ediv hw0 (by omega)]
        exact Int.ediv_nonneg hw0 (by omega)
      have hH0 : 0 ≤ int16wrap (Int.tdiv img.m_imageHeight binY) := by
        rw [hwH, Int.tdiv_eq_ediv hh0 (by omega)]
        exact Int.ediv_nonneg hh0 (by omega)
      rw [CImageData.ApplyBinning, if_neg (by simp [CImageData.HasData, hd]),
        if_neg h11]
      refine (sizeInv_of_some rfl).mpr ?_
      refine ⟨?_, hW0, hH0⟩
      show ((((rowMajorPairs _ _).foldl (binStep _ _ _ _ _) (List.replicate _ 0)).length : Nat) : Int) = _
      rw [foldl_binStep_length, List.length_replicate,
        Int.toNat_of_nonneg (mul_nonneg hH0 hW0)]
      ring

theorem flipHorizontal_sizeInv (img : CImageData) (h : img.SizeInv) :
    img.FlipHorizontal.SizeInv ∧
    (img.ZeroDimNoData → img.FlipHorizontal.ZeroDimNoData) := by
  rcases hd : img.m_imageData with _ | l
  · have heq : img.FlipHorizontal = img := by
      rw [CImageData.FlipHorizontal, hd]
    rw [heq]
    exact ⟨h, fun hz => hz⟩
  · have h' := (sizeInv_of_some hd).mp h
    obtain ⟨hlen, hw0, hh0⟩ := h'
    have hlenN : l.length = img.m_imageHeight.toNat * img.m_imageWidth.toNat := by
      have h2 := Int.toNat_of_nonneg hw0
      have h3 := Int.toNat_of_nonneg hh0
      have h1 : (l.length : Int) =
          (img.m_imageWidth.toNat : Int) * (img.m_imageHeight.toNat : Int) := by
        rw [h2, h3]
        exact hlen
      have h4 : l.length = img.m_imageWidth.toNat * img.m_imageHeight.toNat := by
        exact_mod_cast h1
      rw [h4, Nat.mul_comm]
    have hfl : ((List.range img.m_imageHeight.toNat).flatMap
        fun r => ((l.drop (r * img.m_imageWidth.toNat)).take img.m_imageWidth.toNat).reverse).length
        = img.m_imageHeight.toNat * img.m_imageWidth.toNat := by
      rw [List.length_flatMap]
      have hmap : (List.range img.m_imageHeight.toNat).map
            (List.length ∘ fun r =>
              ((l.drop (r * img.m_imageWidth.toNat)).take img.m_imageWidth.toNat).reverse)
          = (List.range img.m_imageHeight.toNat).map fun _ => img.m_imageWidth.toNat := by
        apply List.map_congr_left
        intro r hr
        rw [List.mem_range] at hr
        simp only [Function.comp_apply, List.length_reverse, List.length_take,
          List.length_drop]
        rw [hlenN]
        have hmul : (r + 1) * img.m_imageWidth.toNat ≤
            img.m_imageHeight.toNat * img.m_imageWidth.toNat :=
          Nat.mul_le_mul_right _ hr
        rw [Nat.succ_mul] at hmul
        omega
      rw [hmap, List.map_const', List.sum_replicate, List.length_range, smul_eq_mul]
    constructor
    · rw [CImageData.FlipHorizontal, hd]
      refine (sizeInv_of_some rfl).mpr ?_
      refine ⟨?_, hw0, hh0⟩
      show ((((List.range _).flatMap _).length : Nat) : Int) = _
      rw [hfl]
      push_cast
      rw [Int.toNat_of_nonneg hw0, Int.toNat_of_nonneg hh0]
      ring
    · intro hz
      rw [CImageData.FlipHorizontal, hd]
      intro hdim
      exfalso
      have hnd := hz (by simpa using hdim)
      rw [CImageData.HasData, hd] at hnd
      simp at hnd

/-! ## C6 amended: all operations preserve the size invariant; the
zero-dimension/no-data property holds for construction, copy and clear but
is not preserved by ApplyBinning -/

/-- C6 (corrected, amended): every `CImageData` operation preserves the
invariant `array length = width * height` — construction and copy/assign
establish it outright, `ClearImage` resets to the empty state, `Add`,
`ApplyBinning` (for bin factors ≥ 1 on 16-bit-range dimensions, where the
internal `short` cast is value-preserving) and `FlipHorizontal` preserve
it.  A buffer constructed with non-positive dimensions, a copy of an empty
buffer, and a cleared buffer all report no data; construction and copy also
guarantee that a zero dimension implies no data, and `Add` and
`FlipHorizontal` preserve that property — but `ApplyBinning` does not (see
the counterexample: it can produce a zero-width buffer whose zero-length
array is still non-null). -/
theorem imageBuffer_size_invariants :
    (∀ (w h : Int) (d : Option (List Nat)) (md : CImageMetadata) (is8 ej : Bool)
        (q pMin pMax : Int) (asc : Bool) (now : Nat),
      (CImageData.construct w h d md is8 ej q pMin pMax asc now).SizeInv ∧
      (CImageData.construct w h d md is8 ej q pMin pMax asc now).ZeroDimNoData ∧
      (w ≤ 0 ∨ h ≤ 0 →
        (CImageData.construct w h d md is8 ej q pMin pMax asc now).HasData = false)) ∧
    (∀ rhs : CImageData, (rhs.SizeInv → (CImageData.assign rhs).SizeInv) ∧
      (CImageData.assign rhs).ZeroDimNoData) ∧
    (∀ img : CImageData, img.ClearImage.SizeInv ∧ img.ClearImage.HasData = false) ∧
    (∀ lhs rhs : CImageData, lhs.SizeInv → rhs.SizeInv →
      ((lhs.Add rhs).SizeInv ∧ (lhs.ZeroDimNoData → (lhs.Add rhs).ZeroDimNoData))) ∧
    (∀ (img : CImageData) (binX binY : Int), img.SizeInv → 1 ≤ binX → 1 ≤ binY →
      img.m_imageWidth ≤ 32767 → img.m_imageHeight ≤ 32767 →
      (img.ApplyBinning binX binY).SizeInv) ∧
    (∀ img : CImageData, img.SizeInv →
      (img.FlipHorizontal.SizeInv ∧
        (img.ZeroDimNoData → img.FlipHorizontal.ZeroDimNoData))) := by
  refine ⟨?_, ?_, ?_, ?_, ?_, ?_⟩
  · intro w h d md is8 ej q pMin pMax asc now
    exact ⟨construct_sizeInv w h d md is8 ej q pMin pMax asc now,
      construct_zeroDim w h d md is8 ej q pMin pMax asc now,
      construct_noData_of_nonpos w h d md is8 ej q pMin pMax asc now⟩
  · intro rhs
    exact ⟨assign_sizeInv rhs, assign_zeroDim rhs⟩
  · exact clearImage_sizeInv
  · intro lhs rhs hL hR
    exact ⟨add_sizeInv lhs rhs hL hR, add_zeroDim lhs rhs⟩
  · exact applyBinning_sizeInv
  · exact flipHorizontal_sizeInv

/-- Witness for `imageBuffer_size_invariants`: the invariant-preservation
parts applied to the concrete 2x2 test buffer (stacked with itself, binned
2x2, and flipped), plus construction with non-positive width. -/
theorem imageBuffer_size_invariants_witness :
    (imgQuad.Add imgQuad).SizeInv ∧
    (imgQuad.ApplyBinning 2 2).SizeInv ∧
    imgQuad.FlipHorizontal.SizeInv ∧
    (CImageData.construct 0 4 none CImageMetadata.default0 false false 100
      (-1) (-1) true 0).HasData = false := by
  have hq : imgQuad.SizeInv := by
    simp [CImageData.SizeInv, imgQuad]
  refine ⟨(imageBuffer_size_invariants.2.2.2.1 imgQuad imgQuad hq hq).1,
    imageBuffer_size_invariants.2.2.2.2.1 imgQuad 2 2 hq (by norm_num) (by norm_num)
      (by norm_num [imgQuad]) (by norm_num [imgQuad]),
    (imageBuffer_size_invariants.2.2.2.2.2 imgQuad hq).1,
    imageBuffer_size_invariants.1 0 4 none CImageMetadata.default0 false false 100
      (-1) (-1) true 0 |>.2.2 (Or.inl le_rfl)⟩

/-! ## Lemmas for the 2x2 binning characterization (C7) -/

theorem foldl_satAdd_eq_min :
    ∀ (l : List Nat) (a : Nat), a ≤ 65535 → l.foldl satAdd a = min (a + l.sum) 65535 := by
  intro l
  induction l with
  | nil =>
    intro a ha
    rw [List.foldl_nil, List.sum_nil]
    omega
  | cons x l ih =>
    intro a ha
    rw [List.foldl_cons, List.sum_cons, ih (satAdd a x) (by unfold satAdd; split <;> omega)]
    unfold satAdd
    split <;> omega

theorem satAdd_le (a b : Nat) (_ : a ≤ 65535) : satAdd a b ≤ 65535 := by
  unfold satAdd
  split <;> omega

theorem mem_rowMajorPairs {rows cols : Nat} {rc : Nat × Nat} :
    rc ∈ rowMajorPairs rows cols ↔ rc.1 < rows ∧ rc.2 < cols := by
  unfold rowMajorPairs
  constructor
  · intro h
    rw [List.mem_flatMap] at h
    obtain ⟨r, hr, hmem⟩ := h
    rw [List.mem_map] at hmem
    obtain ⟨c, hc, rfl⟩ := hmem
    rw [List.mem_range] at hr hc
    exact ⟨hr, hc⟩
  · intro ⟨h1, h2⟩
    rw [List.mem_flatMap]
    exact ⟨rc.1, List.mem_range.mpr h1,
      List.mem_map.mpr ⟨rc.2, List.mem_range.mpr h2, rfl⟩⟩

theorem binStep_getD (s : List Nat) (w bx bY nw : Int) (tgt : List Nat)
    (rc : Nat × Nat) (t : Nat) (ht : t < tgt.length) :
    (binStep s w bx bY nw tgt rc).getD t 0 =
      if Int.tdiv (rc.1 : Int) bY * nw + Int.tdiv (rc.2 : Int) bx = (t : Int) then
        satAdd (tgt.getD t 0) (s.getD ((rc.1 : Int) * w + (rc.2 : Int)).toNat 0)
      else tgt.getD t 0 := by
  simp only [binStep]
  by_cases hidx : Int.tdiv (rc.1 : Int) bY * nw + Int.tdiv (rc.2 : Int) bx = (t : Int)
  · rw [if_pos hidx, if_pos (hidx ▸ Int.natCast_nonneg t), hidx, Int.toNat_natCast]
    simp [List.getD_eq_getElem?_getD, List.getElem?_set_self, ht]
  · rw [if_neg hidx]
    by_cases h0 : 0 ≤ Int.tdiv (rc.1 : Int) bY * nw + Int.tdiv (rc.2 : Int) bx
    · rw [if_pos h0]
      have hne : (Int.tdiv (rc.1 : Int) bY * nw + Int.tdiv (rc.2 : Int) bx).toNat ≠ t := by
        intro hEq
        exact hidx (by rw [← hEq, Int.toNat_of_nonneg h0])
      simp [List.getD_eq_getElem?_getD, List.getElem?_set_ne hne]
    · rw [if_neg h0]

theorem foldl_binStep_getD (s : List Nat) (w bx bY nw : Int) :
    ∀ (ps : List (Nat × Nat)) (tgt : List Nat) (t : Nat), t < tgt.length →
      (ps.foldl (binStep s w bx bY nw) tgt).getD t 0 =
        (ps.filterMap fun rc =>
            if Int.tdiv (rc.1 : Int) bY * nw + Int.tdiv (rc.2 : Int) bx = (t : Int) then
              some (s.getD ((rc.1 : Int) * w + (rc.2 : Int)).toNat 0)
            else none).foldl satAdd (tgt.getD t 0) := by
  intro ps
  induction ps with
  | nil =>
    intro tgt t ht
    rfl
  | cons rc ps ih =>
    intro tgt t ht
    rw [List.foldl_cons, List.filterMap_cons,
      ih (binStep s w bx bY nw tgt rc) t (by rw [binStep_length]; exact ht)]
    by_cases hidx : Int.tdiv (rc.1 : Int) bY * nw + Int.tdiv (rc.2 : Int) bx = (t : Int)
    · rw [if_pos hidx] at *
      rw [binStep_getD s w bx bY nw tgt rc t ht, if_pos hidx]
      rfl
    · rw [binStep_getD s w bx bY nw tgt rc t ht]
      simp only [if_neg hidx]

theorem sum_filterMap_ite {α : Type} (p : α → Prop) [DecidablePred p] (f : α → Nat) :
    ∀ l : List α,
      (l.filterMap fun x => if p x then some (f x) else none).sum =
        (l.map fun x => if p x then f x else 0).sum := by
  intro l
  induction l with
  | nil => rfl
  | cons x l ih =>
    rw [List.filterMap_cons, List.map_cons, List.sum_cons]
    by_cases hp : p x
    · rw [if_pos hp, if_pos hp]
      rw [List.sum_cons, ih]
    · rw [if_neg hp, if_neg hp, ih, Nat.zero_add]

theorem sum_map_flatMap {α β : Type} (F : β → Nat) (g : α → List β) :
    ∀ l : List α,
      ((l.flatMap g).map F).sum = (l.map fun x => ((g x).map F).sum).sum := by
  intro l
  induction l with
  | nil => rfl
  | cons x l ih =>
    rw [List.flatMap_cons, List.map_append, List.sum_append, List.map_cons,
      List.sum_cons, ih]

theorem sum_range_half_indicator (F : Nat → Nat) {n k : Nat} (h : 2 * k + 1 < n) :
    ((List.range n).map fun c => if c / 2 = k then F c else 0).sum
      = F (2 * k) + F (2 * k + 1) := by
  obtain ⟨m, rfl⟩ : ∃ m, n = 2 * k + (2 + m) := ⟨n - (2 * k + 2), by omega⟩
  rw [List.range_add, List.map_append, List.sum_append]
  have h1 : ((List.range (2 * k)).map fun c => if c / 2 = k then F c else 0).sum = 0 := by
    apply List.sum_eq_zero
    intro x hx
    rw [List.mem_map] at hx
    obtain ⟨c, hc, rfl⟩ := hx
    rw [List.mem_range] at hc
    rw [if_neg (by omega)]
  rw [h1, Nat.zero_add, List.map_map, List.range_add, List.map_append, List.sum_append,
    List.map_map]
  have h2 : ((List.range 2).map ((fun c => if c / 2 = k then F c else 0) ∘ (2 * k + ·))).sum
      = F (2 * k) + F (2 * k + 1) := by
    show (if (2 * k + 0) / 2 = k then F (2 * k + 0) else 0) +
      ((if (2 * k + 1) / 2 = k then F (2 * k + 1) else 0) + 0) = _
    rw [if_pos (by omega), if_pos (by omega)]
    simp
  have h3 : ((List.range m).map (((fun c => if c / 2 = k then F c else 0) ∘ (2 * k + ·)) ∘
      (2 + ·))).sum = 0 := by
    apply List.sum_eq_zero
    intro x hx
    rw [List.mem_map] at hx
    obtain ⟨c, hc, rfl⟩ := hx
    simp only [Function.comp_apply]
    rw [if_neg (by omega)]
  rw [h2, h3]
  omega

theorem rowcol_unique {n a a' b b' : Nat} (hb : b < n) (hb' : b' < n)
    (h : a * n + b = a' * n + b') : a = a' ∧ b = b' := by
  have hn : 0 < n := by omega
  have ha : (a * n + b) / n = a := by
    rw [Nat.mul_comm a n, Nat.mul_add_div hn, Nat.div_eq_of_lt hb, Nat.add_zero]
  have ha' : (a' * n + b') / n = a' := by
    rw [Nat.mul_comm a' n, Nat.mul_add_div hn, Nat.div_eq_of_lt hb', Nat.add_zero]
  have haa : a = a' := by rw [← ha, ← ha', h]
  constructor
  · exact haa
  · have := h
    rw [haa] at this
    omega

theorem idxI_natCast (r c nw : Nat) :
    Int.tdiv (r : Int) 2 * (nw : Int) + Int.tdiv (c : Int) 2
      = ((r / 2 * nw + c / 2 : Nat) : Int) := by
  rw [show Int.tdiv (r : Int) 2 = ((r / 2 : Nat) : Int) from rfl,
    show Int.tdiv (c : Int) 2 = ((c / 2 : Nat) : Int) from rfl]
  push_cast
  ring

theorem srcIdx_natCast (r wN c : Nat) :
    ((r : Int) * (wN : Int) + (c : Int)).toNat = r * wN + c := by
  rw [show (r : Int) * (wN : Int) + (c : Int) = ((r * wN + c : Nat) : Int) by
    push_cast; ring]
  exact Int.toNat_natCast _

theorem binFold_getD (s : List Nat) (wN nw nh : Nat) (tr tc : Nat)
    (htr : tr < nh) (htc : tc < nw) :
    ((rowMajorPairs (nh * 2) (nw * 2)).foldl (binStep s (wN : Int) 2 2 (nw : Int))
        (List.replicate (nh * nw) 0)).getD (tr * nw + tc) 0
      = min (s.getD (2 * tr * wN + 2 * tc) 0 + s.getD (2 * tr * wN + (2 * tc + 1)) 0 +
             s.getD ((2 * tr + 1) * wN + 2 * tc) 0 +
             s.getD ((2 * tr + 1) * wN + (2 * tc + 1)) 0) 65535 := by
  have ht : tr * nw + tc < nh * nw := by
    have h1 : tr * nw + nw ≤ nh * nw := by
      have := Nat.mul_le_mul_right nw htr
      rw [Nat.succ_mul] at this
      exact this
    omega
  have ht' : tr * nw + tc < (List.replicate (nh * nw) (0 : Nat)).length := by
    rw [List.length_replicate]
    exact ht
  rw [foldl_binStep_getD s (wN : Int) 2 2 (nw : Int) _ _ _ ht']
  have hinit : (List.replicate (nh * nw) (0 : Nat)).getD (tr * nw + tc) 0 = 0 := by
    rw [List.getD_eq_getElem _ _ ht', List.getElem_replicate]
  rw [hinit, foldl_satAdd_eq_min _ 0 (by omega)]
  have hsum : ((rowMajorPairs (nh * 2) (nw * 2)).filterMap fun rc =>
      if Int.tdiv (rc.1 : Int) 2 * (nw : Int) + Int.tdiv (rc.2 : Int) 2
          = ((tr * nw + tc : Nat) : Int) then
        some (s.getD ((rc.1 : Int) * (wN : Int) + (rc.2 : Int)).toNat 0)
      else none).sum
      = s.getD (2 * tr * wN + 2 * tc) 0 + s.getD (2 * tr * wN + (2 * tc + 1)) 0 +
        s.getD ((2 * tr + 1) * wN + 2 * tc) 0 +
        s.getD ((2 * tr + 1) * wN + (2 * tc + 1)) 0 := by
    rw [sum_filterMap_ite]
    have hcongr : ((rowMajorPairs (nh * 2) (nw * 2)).map fun rc =>
        if Int.tdiv (rc.1 : Int) 2 * (nw : Int) + Int.tdiv (rc.2 : Int) 2
            = ((tr * nw + tc : Nat) : Int) then
          s.getD ((rc.1 : Int) * (wN : Int) + (rc.2 : Int)).toNat 0
        else 0)
        = (rowMajorPairs (nh * 2) (nw * 2)).map fun rc =>
          if rc.1 / 2 = tr then
            (if rc.2 / 2 = tc then s.getD (rc.1 * wN + rc.2) 0 else 0)
          else 0 := by
      apply List.map_congr_left
      intro rc hm
      obtain ⟨hr, hc⟩ := mem_rowMajorPairs.mp hm
      have hiff : (Int.tdiv (rc.1 : Int) 2 * (nw : Int) + Int.tdiv (rc.2 : Int) 2
          = ((tr * nw + tc : Nat) : Int)) ↔ (rc.1 / 2 = tr ∧ rc.2 / 2 = tc) := by
        rw [idxI_natCast, Int.natCast_inj]
        constructor
        · intro hEq
          exact rowcol_unique (by omega) htc hEq
        · intro ⟨h1, h2⟩
          rw [h1, h2]
      rw [if_congr hiff rfl rfl, ite_and, srcIdx_natCast]
    rw [hcongr]
    unfold rowMajorPairs
    rw [sum_map_flatMap]
    have hrows : ((List.range (nh * 2)).map fun r =>
        (((List.range (nw * 2)).map fun c => (r, c)).map fun rc =>
          if rc.1 / 2 = tr then
            (if rc.2 / 2 = tc then s.getD (rc.1 * wN + rc.2) 0 else 0)
          else 0).sum)
        = (List.range (nh * 2)).map fun r =>
          if r / 2 = tr then
            s.getD (r * wN + 2 * tc) 0 + s.getD (r * wN + (2 * tc + 1)) 0
          else 0 := by
      apply List.map_congr_left
      intro r hrm
      rw [List.map_map]
      by_cases hr2 : r / 2 = tr
      · rw [if_pos hr2]
        have hin : ((List.range (nw * 2)).map ((fun rc : Nat × Nat =>
            if rc.1 / 2 = tr then
              (if rc.2 / 2 = tc then s.getD (rc.1 * wN + rc.2) 0 else 0)
            else 0) ∘ fun c => (r, c)))
            = (List.range (nw * 2)).map fun c =>
              if c / 2 = tc then s.getD (r * wN + c) 0 else 0 := by
          apply List.map_congr_left
          intro c hcm
          simp only [Function.comp_apply]
          rw [if_pos hr2]
        rw [hin, sum_range_half_indicator (fun c => s.getD (r * wN + c) 0)
          (by omega : 2 * tc + 1 < nw * 2)]
      · rw [if_neg hr2]
        have hin : ((List.range (nw * 2)).map ((fun rc : Nat × Nat =>
            if rc.1 / 2 = tr then
              (if rc.2 / 2 = tc then s.getD (rc.1 * wN + rc.2) 0 else 0)
            else 0) ∘ fun c => (r, c)))
            = (List.range (nw * 2)).map fun _ => 0 := by
          apply List.map_congr_left
          intro c hcm
          simp only [Function.comp_apply]
          rw [if_neg hr2]
        rw [hin, List.map_const', List.sum_replicate, smul_eq_mul, Nat.mul_zero]
    rw [hrows, sum_range_half_indicator
      (fun r => s.getD (r * wN + 2 * tc) 0 + s.getD (r * wN + (2 * tc + 1)) 0)
      (by omega : 2 * tr + 1 < nh * 2)]
    omega
  rw [hsum]
  omega

/-! ## C7: ApplyBinning(2,2) produces the saturating 2x2 block sums -/

/-- C7 (confirmed): on any buffer with data whose pixel array matches its
dimensions (the container's invariant) and whose dimensions fit the internal
16-bit locals, `ApplyBinning 2 2` stores width `width / 2` and height
`height / 2`, allocates exactly `(width / 2) * (height / 2)` samples, and
each output sample at `(tr, tc)` equals the sum of its four contributing
input samples saturated at `0xFFFF`. -/
theorem applyBinning_two_by_two_sums_blocks :
    ∀ (img : CImageData) (l : List Nat),
      img.m_imageData = some l →
      (l.length : Int) = img.m_imageWidth * img.m_imageHeight →
      0 ≤ img.m_imageWidth → img.m_imageWidth ≤ 32767 →
      0 ≤ img.m_imageHeight → img.m_imageHeight ≤ 32767 →
      ∃ l' : List Nat,
        (img.ApplyBinning 2 2).m_imageData = some l' ∧
        (img.ApplyBinning 2 2).m_imageWidth = ((img.m_imageWidth.toNat / 2 : Nat) : Int) ∧
        (img.ApplyBinning 2 2).m_imageHeight = ((img.m_imageHeight.toNat / 2 : Nat) : Int) ∧
        l'.length = (img.m_imageHeight.toNat / 2) * (img.m_imageWidth.toNat / 2) ∧
        ∀ tr tc : Nat,
          tr < img.m_imageHeight.toNat / 2 → tc < img.m_imageWidth.toNat / 2 →
          l'.getD (tr * (img.m_imageWidth.toNat / 2) + tc) 0 =
            min (l.getD (2 * tr * img.m_imageWidth.toNat + 2 * tc) 0 +
                 l.getD (2 * tr * img.m_imageWidth.toNat + (2 * tc + 1)) 0 +
                 l.getD ((2 * tr + 1) * img.m_imageWidth.toNat + 2 * tc) 0 +
                 l.getD ((2 * tr + 1) * img.m_imageWidth.toNat + (2 * tc + 1)) 0) 65535 := by
  intro img l hd hlen hw0 hwB hh0 hhB
  obtain ⟨wN, hWeq⟩ : ∃ wN : Nat, img.m_imageWidth = (wN : Int) :=
    ⟨img.m_imageWidth.toNat, (Int.toNat_of_nonneg hw0).symm⟩
  obtain ⟨hN, hHeq⟩ : ∃ hN : Nat, img.m_imageHeight = (hN : Int) :=
    ⟨img.m_imageHeight.toNat, (Int.toNat_of_nonneg hh0).symm⟩
  have hwN : wN ≤ 32767 := by
    rw [hWeq] at hwB
    exact_mod_cast hwB
  have hhN : hN ≤ 32767 := by
    rw [hHeq] at hhB
    exact_mod_cast hhB
  have h2ne : ¬((2 : Int) = 1 ∧ (2 : Int) = 1) := by norm_num
  have hw1 : int16wrap (Int.tdiv ((wN : Nat) : Int) 2) = ((wN / 2 : Nat) : Int) := by
    rw [show Int.tdiv ((wN : Nat) : Int) 2 = ((wN / 2 : Nat) : Int) from rfl]
    exact int16wrap_eq_self (Int.natCast_nonneg _) (by omega)
  have hh1 : int16wrap (Int.tdiv ((hN : Nat) : Int) 2) = ((hN / 2 : Nat) : Int) := by
    rw [show Int.tdiv ((hN : Nat) : Int) 2 = ((hN / 2 : Nat) : Int) from rfl]
    exact int16wrap_eq_self (Int.natCast_nonneg _) (by omega)
  have hw2 : int16wrap (((wN / 2 : Nat) : Int) * 2) = ((wN / 2 * 2 : Nat) : Int) := by
    rw [show ((wN / 2 : Nat) : Int) * 2 = ((wN / 2 * 2 : Nat) : Int) by push_cast; ring]
    exact int16wrap_eq_self (Int.natCast_nonneg _) (by omega)
  have hh2 : int16wrap (((hN / 2 : Nat) : Int) * 2) = ((hN / 2 * 2 : Nat) : Int) := by
    rw [show ((hN / 2 : Nat) : Int) * 2 = ((hN / 2 * 2 : Nat) : Int) by push_cast; ring]
    exact int16wrap_eq_self (Int.natCast_nonneg _) (by omega)
  have happ : img.ApplyBinning 2 2 = { img with
      m_imageData := some ((rowMajorPairs (hN / 2 * 2) (wN / 2 * 2)).foldl
        (binStep l (wN : Int) 2 2 ((wN / 2 : Nat) : Int))
        (List.replicate (hN / 2 * (wN / 2)) 0)),
      m_imageWidth := ((wN / 2 : Nat) : Int),
      m_imageHeight := ((hN / 2 : Nat) : Int) } := by
    rw [CImageData.ApplyBinning, if_neg (by simp [CImageData.HasData, hd]), if_neg h2ne]
    simp only [hd, Option.getD_some, hWeq, hHeq, hw1, hh1, hw2, hh2, ← Nat.cast_mul,
      Int.toNat_natCast]
  have hTw : img.m_imageWidth.toNat = wN := by rw [hWeq, Int.toNat_natCast]
  have hTh : img.m_imageHeight.toNat = hN := by rw [hHeq, Int.toNat_natCast]
  rw [happ, hTw, hTh]
  refine ⟨_, rfl, rfl, rfl, ?_, ?_⟩
  · rw [foldl_binStep_length, List.length_replicate]
  · intro tr tc htr htc
    exact binFold_getD l wN (wN / 2) (hN / 2) tr tc htr htc

/-- Witness for `applyBinning_two_by_two_sums_blocks`: the 2x2 buffer with
pixels 1,2,3,4 binned down to a single saturating sum. -/
theorem applyBinning_two_by_two_sums_blocks_witness :
    ∃ l' : List Nat,
      (imgQuad.ApplyBinning 2 2).m_imageData = some l' ∧
      (imgQuad.ApplyBinning 2 2).m_imageWidth = ((imgQuad.m_imageWidth.toNat / 2 : Nat) : Int) ∧
      (imgQuad.ApplyBinning 2 2).m_imageHeight = ((imgQuad.m_imageHeight.toNat / 2 : Nat) : Int) ∧
      l'.length = (imgQuad.m_imageHeight.toNat / 2) * (imgQuad.m_imageWidth.toNat / 2) ∧
      ∀ tr tc : Nat,
        tr < imgQuad.m_imageHeight.toNat / 2 → tc < imgQuad.m_imageWidth.toNat / 2 →
        l'.getD (tr * (imgQuad.m_imageWidth.toNat / 2) + tc) 0 =
          min ([1, 2, 3, 4].getD (2 * tr * imgQuad.m_imageWidth.toNat + 2 * tc) 0 +
               [1, 2, 3, 4].getD (2 * tr * imgQuad.m_imageWidth.toNat + (2 * tc + 1)) 0 +
               [1, 2, 3, 4].getD ((2 * tr + 1) * imgQuad.m_imageWidth.toNat + 2 * tc) 0 +
               [1, 2, 3, 4].getD ((2 * tr + 1) * imgQuad.m_imageWidth.toNat + (2 * tc + 1)) 0) 65535 :=
  applyBinning_two_by_two_sums_blocks imgQuad [1, 2, 3, 4] rfl (by decide)
    (by decide) (by decide) (by decide) (by decide)

end Asicam
